import Mathlib

/-!
Shallow embedding of the storage engine in `src/file_storage.py`
(class `FileStorage` together with the value objects `Note` and `Document`).

Modelling conventions, fixed once for the whole development:

* Timestamps.  `datetime.utcnow().isoformat()` produces ISO-8601 strings that
  compare in the same order as the underlying instants; we model an instant as
  a `Nat`.  Successive `utcnow()` calls are modelled by a pre-recorded list of
  clock `readings` consumed one per call (`tick` counts the calls made so
  far); the real clock is nondecreasing but two adjacent calls may or may not
  return the same value, which the list model reproduces exactly.
* Filesystem.  Each of the four directories the class touches (`notes_dir`,
  `docs_dir`, `uploads/notes`, `uploads/docs`) is an association list from
  filename to payload: full text content for the two content directories,
  byte size for the two upload directories (only sizes matter to the code).
  `os.path.exists` is list membership, `open(..,'w')` overwrites or appends,
  `os.remove` deletes — except for names in `failingRemovals`, where it
  raises, modelling a physical delete error (permissions, I/O failure).
* `metadata.json`.  A parsed index `Metadata` or `none` when the file is
  missing or does not parse; `_load_metadata`'s `try/except` around
  `json.load` maps `none` to the empty index.  `_save_metadata`'s atomic
  temp-file replace is modelled as simply installing the new index (its
  failure branch re-raises and is outside every claim considered here).
* Randomness.  `uuid.uuid4().hex[:8]` is passed in as an explicit `rand`
  argument.
* `werkzeug.utils.secure_filename` is third-party code; it is modelled by its
  documented behaviour: drop everything but ASCII alphanumerics, `_`, `-`,
  `.`, then strip leading/trailing `.` and `_`.
* Python float formatting of the quota message is display-only; the quota
  failure message carries the raw used/limit byte counts instead.
-/

/-- One entry of a metadata record's `attachments` list. -/
structure AttachmentMeta where
  filename : String
  original_filename : String
  uploaded_at : Nat
  deriving Repr, DecidableEq

/-- A notes metadata record as stored in `metadata.json` (keys from
`create_note`). -/
structure NoteMeta where
  id : Int
  title : String
  filename : String
  category : String
  user_id : Option Int
  attachments : List AttachmentMeta
  view_count : Int
  created_at : Nat
  updated_at : Nat
  updated_by : Option Int
  deriving Repr, DecidableEq

/-- A docs metadata record as stored in `metadata.json` (keys from
`create_doc`): no `view_count`, no `updated_by`. -/
structure DocMeta where
  id : Int
  title : String
  filename : String
  category : String
  user_id : Option Int
  attachments : List AttachmentMeta
  created_at : Nat
  updated_at : Nat
  deriving Repr, DecidableEq

/-- The parsed shape of `metadata.json`. -/
structure Metadata where
  notes : List NoteMeta
  docs : List DocMeta
  deriving Repr, DecidableEq

/-- The index `_load_metadata` substitutes on a missing or unparsable file. -/
def emptyMetadata : Metadata := ⟨[], []⟩

/-- Whole state of a `FileStorage` instance: the metadata file, the four
directories, the set of filenames whose `os.remove` raises, and the clock. -/
structure Storage where
  metadata : Option Metadata
  notesFiles : List (String × String)
  docsFiles : List (String × String)
  notesUploads : List (String × Nat)
  docsUploads : List (String × Nat)
  failingRemovals : List String
  readings : List Nat
  tick : Nat
  deriving Repr, DecidableEq

/-- One `datetime.utcnow()` call: the next recorded clock reading. -/
def utcnow (s : Storage) : Nat × Storage :=
  (s.readings.getD s.tick 0, { s with tick := s.tick + 1 })

/-- `FileStorage._load_metadata`: parse the file, or the empty index on a
missing file or any parse failure. -/
def _load_metadata (s : Storage) : Metadata :=
  s.metadata.getD emptyMetadata

/-- `FileStorage._save_metadata`: atomic temp-file replace of
`metadata.json`. -/
def _save_metadata (s : Storage) (m : Metadata) : Storage :=
  { s with metadata := some m }

/-- `os.path.exists` inside one directory. -/
def fileExists (files : List (String × α)) (name : String) : Bool :=
  files.any (fun p => p.1 == name)

/-- Content read of one file (`open(path).read()` guarded by
`os.path.exists`). -/
def lookupFile (files : List (String × α)) (name : String) : Option α :=
  (files.find? (fun p => p.1 == name)).map (fun p => p.2)

/-- `open(path, 'w')`: overwrite an existing file of that name or create a
new one. -/
def writeFile (files : List (String × α)) (name : String) (payload : α) :
    List (String × α) :=
  if fileExists files name then
    files.map (fun p => if p.1 == name then (name, payload) else p)
  else
    files ++ [(name, payload)]

/-- The exception text used for a failing physical `os.remove`. -/
def osRemoveError : String := "os.remove failed"

/-- The pattern `if os.path.exists(p): os.remove(p)`: nothing happens when
the file is absent; removal of a name in `failing` raises. -/
def removeIfExists (failing : List String) (files : List (String × α))
    (name : String) : Except String (List (String × α)) :=
  if fileExists files name then
    if name ∈ failing then Except.error osRemoveError
    else Except.ok (files.filter (fun p => !(p.1 == name)))
  else Except.ok files

/-- The entity kind (`'note'` / `'doc'` for `item_type`). -/
inductive Kind where
  | note
  | doc
  deriving Repr, DecidableEq

/-- `FileStorage.get_next_id`: `max(int(item['id']) for item in items) + 1`,
or `1` when the kind's record list is empty. -/
def get_next_id (s : Storage) (k : Kind) : Int :=
  let ids : List Int :=
    match k with
    | Kind.note => ((_load_metadata s).notes).map (fun nm => nm.id)
    | Kind.doc => ((_load_metadata s).docs).map (fun dm => dm.id)
  match ids with
  | [] => 1
  | x :: xs => xs.foldl max x + 1

/-- Splits a list at the first element satisfying `p` (the `for … if …`
loop pattern of the Python code): `some (pre, x, post)` when found. -/
def splitAtFirst (p : α → Bool) : List α → Option (List α × α × List α)
  | [] => none
  | x :: xs =>
    if p x then some ([], x, xs)
    else (splitAtFirst p xs).map (fun t => (x :: t.1, t.2.1, t.2.2))

/-- The `Note` value object (class `Note`). -/
structure Note where
  id : Int
  title : String
  content : String
  category : String
  user_id : Option Int
  attachments : List AttachmentMeta
  view_count : Int
  created_at : Nat
  updated_at : Nat
  updated_by : Option Int
  deriving Repr, DecidableEq

/-- The `Document` value object (class `Document`). -/
structure Document where
  id : Int
  title : String
  content : String
  category : String
  user_id : Option Int
  attachments : List AttachmentMeta
  created_at : Nat
  updated_at : Nat
  deriving Repr, DecidableEq

/-- Assembling a `Note` from its metadata record plus freshly read content
(`get_note`'s constructor call). -/
def noteFromMeta (nm : NoteMeta) (content : String) : Note :=
  { id := nm.id, title := nm.title, content := content,
    category := nm.category, user_id := nm.user_id,
    attachments := nm.attachments, view_count := nm.view_count,
    created_at := nm.created_at, updated_at := nm.updated_at,
    updated_by := nm.updated_by }

/-- Assembling a `Document` from its metadata record plus content
(`get_doc`'s constructor call). -/
def docFromMeta (dm : DocMeta) (content : String) : Document :=
  { id := dm.id, title := dm.title, content := content,
    category := dm.category, user_id := dm.user_id,
    attachments := dm.attachments,
    created_at := dm.created_at, updated_at := dm.updated_at }

/-- `FileStorage.get_note`: first record with a matching id whose content
file exists; records with the id but a missing file are skipped and the scan
continues. -/
def get_note (s : Storage) (note_id : Int) : Option Note :=
  match ((_load_metadata s).notes).find?
      (fun nm => nm.id == note_id && fileExists s.notesFiles nm.filename) with
  | none => none
  | some nm =>
    match lookupFile s.notesFiles nm.filename with
    | none => none
    | some content => some (noteFromMeta nm content)

/-- `FileStorage.get_doc`: the document analogue of `get_note`. -/
def get_doc (s : Storage) (doc_id : Int) : Option Document :=
  match ((_load_metadata s).docs).find?
      (fun dm => dm.id == doc_id && fileExists s.docsFiles dm.filename) with
  | none => none
  | some dm =>
    match lookupFile s.docsFiles dm.filename with
    | none => none
    | some content => some (docFromMeta dm content)

/-- `FileStorage.create_note`: allocate an id, write the content file, load
the index, append the new record (two separate `utcnow()` calls for
`created_at` and `updated_at`), save, and return `get_note(new id)`. -/
def create_note (s : Storage) (title content category : String)
    (user_id : Option Int) : Option Note × Storage :=
  let note_id := get_next_id s Kind.note
  let filename := toString note_id ++ ".txt"
  let s1 := { s with notesFiles := writeFile s.notesFiles filename content }
  let m := _load_metadata s1
  let (t1, s2) := utcnow s1
  let (t2, s3) := utcnow s2
  let nm : NoteMeta :=
    { id := note_id, title := title, filename := filename,
      category := category, user_id := user_id, attachments := [],
      view_count := 0, created_at := t1, updated_at := t2,
      updated_by := none }
  let s4 := _save_metadata s3 { m with notes := m.notes ++ [nm] }
  (get_note s4 note_id, s4)

/-- `FileStorage.create_doc`: the document analogue of `create_note`. -/
def create_doc (s : Storage) (title content category : String)
    (user_id : Option Int) : Option Document × Storage :=
  let doc_id := get_next_id s Kind.doc
  let filename := toString doc_id ++ ".txt"
  let s1 := { s with docsFiles := writeFile s.docsFiles filename content }
  let m := _load_metadata s1
  let (t1, s2) := utcnow s1
  let (t2, s3) := utcnow s2
  let dm : DocMeta :=
    { id := doc_id, title := title, filename := filename,
      category := category, user_id := user_id, attachments := [],
      created_at := t1, updated_at := t2 }
  let s4 := _save_metadata s3 { m with docs := m.docs ++ [dm] }
  (get_doc s4 doc_id, s4)

/-- Python `str.lower()` (ASCII model). -/
def pyLower (s : String) : String := String.map Char.toLower s

/-- Needle-at-head test for character lists. -/
def leadMatch : List Char → List Char → Bool
  | [], _ => true
  | _ :: _, [] => false
  | a :: as, b :: bs => a == b && leadMatch as bs

/-- Occurrence of `needle` anywhere in the haystack. -/
def occursIn (needle : List Char) : List Char → Bool
  | [] => leadMatch needle []
  | c :: rest => leadMatch needle (c :: rest) || occursIn needle rest

/-- Python's substring operator `needle in hay` on strings. -/
def pyIn (needle hay : String) : Bool := occursIn needle.toList hay.toList

/-- The category guard of `get_all_notes` / `get_all_docs`:
`if category and category != 'all' and meta.get('category') != category:
continue`.  `none` and the empty string are falsy; `"all"` is the no-filter
sentinel. -/
def catSkip (category : Option String) (c : String) : Bool :=
  match category with
  | none => false
  | some v => !(v == "") && !(v == "all") && !(c == v)

/-- The search guard: `if search_query:` then skip unless the lowered query
occurs in the lowered title or the lowered content. -/
def querySkip (search_query : Option String) (title content : String) : Bool :=
  match search_query with
  | none => false
  | some q =>
    !(q == "") && !(pyIn (pyLower q) (pyLower title)) &&
      !(pyIn (pyLower q) (pyLower content))

/-- The filtering loop of `get_all_notes`, before the final sort. -/
def collectNotes (s : Storage) (category search_query : Option String) :
    List NoteMeta → List Note
  | [] => []
  | nm :: rest =>
    if catSkip category nm.category then
      collectNotes s category search_query rest
    else
      match lookupFile s.notesFiles nm.filename with
      | none => collectNotes s category search_query rest
      | some content =>
        if querySkip search_query nm.title content then
          collectNotes s category search_query rest
        else
          noteFromMeta nm content :: collectNotes s category search_query rest

/-- The filtering loop of `get_all_docs`, before the final sort. -/
def collectDocs (s : Storage) (category search_query : Option String) :
    List DocMeta → List Document
  | [] => []
  | dm :: rest =>
    if catSkip category dm.category then
      collectDocs s category search_query rest
    else
      match lookupFile s.docsFiles dm.filename with
      | none => collectDocs s category search_query rest
      | some content =>
        if querySkip search_query dm.title content then
          collectDocs s category search_query rest
        else
          docFromMeta dm content :: collectDocs s category search_query rest

/-- The comparison of `notes.sort(key=lambda x: x.updated_at, reverse=True)`:
a stable sort placing larger `updated_at` first. -/
def noteDescLe (a b : Note) : Bool := decide (b.updated_at ≤ a.updated_at)

/-- The document analogue of `noteDescLe`. -/
def docDescLe (a b : Document) : Bool := decide (b.updated_at ≤ a.updated_at)

/-- `FileStorage.get_all_notes`. -/
def get_all_notes (s : Storage) (category search_query : Option String) :
    List Note :=
  (collectNotes s category search_query ((_load_metadata s).notes)).mergeSort
    noteDescLe

/-- `FileStorage.get_all_docs`. -/
def get_all_docs (s : Storage) (category search_query : Option String) :
    List Document :=
  (collectDocs s category search_query ((_load_metadata s).docs)).mergeSort
    docDescLe

/-- `FileStorage.increment_note_view_count`: bump `view_count` of the first
record with the id and save; `False` when the id is unmatched. -/
def increment_note_view_count (s : Storage) (note_id : Int) : Bool × Storage :=
  let m := _load_metadata s
  match splitAtFirst (fun nm => nm.id == note_id) m.notes with
  | none => (false, s)
  | some (pre, nm, post) =>
    (true, _save_metadata s
      { m with notes := pre ++ { nm with view_count := nm.view_count + 1 } :: post })

/-- `FileStorage.update_note`: apply the provided fields to the first record
with the id (content rewrites the content file), set `updated_at` (and
`updated_by` when an editor is supplied) and save only when something was
applied; return whether anything was applied. -/
def update_note (s : Storage) (note_id : Int)
    (title content category : Option String) (user_id : Option Int) :
    Bool × Storage :=
  let m := _load_metadata s
  match splitAtFirst (fun nm => nm.id == note_id) m.notes with
  | none => (false, s)
  | some (pre, nm, post) =>
    let nm1 := match title with
      | none => nm
      | some t => { nm with title := t }
    let nm2 := match category with
      | none => nm1
      | some c => { nm1 with category := c }
    let s1 := match content with
      | none => s
      | some c => { s with notesFiles := writeFile s.notesFiles nm.filename c }
    let updated := title.isSome || category.isSome || content.isSome
    if updated then
      let (now, s2) := utcnow s1
      let newBy := match user_id with
        | none => nm2.updated_by
        | some u => some u
      let nmF := { nm2 with updated_at := now, updated_by := newBy }
      (true, _save_metadata s2 { m with notes := pre ++ nmF :: post })
    else (false, s)

/-- `FileStorage.update_doc`: the document analogue of `update_note`
(no editor parameter). -/
def update_doc (s : Storage) (doc_id : Int)
    (title content category : Option String) : Bool × Storage :=
  let m := _load_metadata s
  match splitAtFirst (fun dm => dm.id == doc_id) m.docs with
  | none => (false, s)
  | some (pre, dm, post) =>
    let dm1 := match title with
      | none => dm
      | some t => { dm with title := t }
    let dm2 := match category with
      | none => dm1
      | some c => { dm1 with category := c }
    let s1 := match content with
      | none => s
      | some c => { s with docsFiles := writeFile s.docsFiles dm.filename c }
    let updated := title.isSome || category.isSome || content.isSome
    if updated then
      let (now, s2) := utcnow s1
      let dmF := { dm2 with updated_at := now }
      (true, _save_metadata s2 { m with docs := pre ++ dmF :: post })
    else (false, s)

/-- The attachment-file cleanup loop of `delete_note` / `delete_doc`:
remove each attachment's upload file if present; an `os.remove` failure
propagates, leaving the remaining files in place. -/
def deleteAttachFiles (failing : List String) (uploads : List (String × Nat)) :
    List AttachmentMeta → Option String × List (String × Nat)
  | [] => (none, uploads)
  | a :: rest =>
    match removeIfExists failing uploads a.filename with
    | Except.error e => (some e, uploads)
    | Except.ok u => deleteAttachFiles failing u rest

/-- `FileStorage.delete_note`: remove the content file if present, every
attachment file if present, and the metadata record of the first match;
`Except.error` models a propagating `os.remove` exception (nothing saved). -/
def delete_note (s : Storage) (note_id : Int) : Except String Bool × Storage :=
  let m := _load_metadata s
  match splitAtFirst (fun nm => nm.id == note_id) m.notes with
  | none => (Except.ok false, s)
  | some (pre, nm, post) =>
    match removeIfExists s.failingRemovals s.notesFiles nm.filename with
    | Except.error e => (Except.error e, s)
    | Except.ok nf =>
      match deleteAttachFiles s.failingRemovals s.notesUploads nm.attachments with
      | (some e, nu) =>
        (Except.error e, { s with notesFiles := nf, notesUploads := nu })
      | (none, nu) =>
        (Except.ok true,
          _save_metadata { s with notesFiles := nf, notesUploads := nu }
            { m with notes := pre ++ post })

/-- `FileStorage.delete_doc`: the document analogue of `delete_note`. -/
def delete_doc (s : Storage) (doc_id : Int) : Except String Bool × Storage :=
  let m := _load_metadata s
  match splitAtFirst (fun dm => dm.id == doc_id) m.docs with
  | none => (Except.ok false, s)
  | some (pre, dm, post) =>
    match removeIfExists s.failingRemovals s.docsFiles dm.filename with
    | Except.error e => (Except.error e, s)
    | Except.ok df =>
      match deleteAttachFiles s.failingRemovals s.docsUploads dm.attachments with
      | (some e, du) =>
        (Except.error e, { s with docsFiles := df, docsUploads := du })
      | (none, du) =>
        (Except.ok true,
          _save_metadata { s with docsFiles := df, docsUploads := du }
            { m with docs := pre ++ post })

/-- Byte size of a content file (`os.path.getsize` of a UTF-8 text file). -/
def contentSize (content : String) : Nat := content.utf8ByteSize

/-- `FileStorage.get_total_storage_size`: sum of file sizes under the
uploads root (both per-kind subdirectories), the notes content directory
and the docs content directory. -/
def get_total_storage_size (s : Storage) : Nat :=
  ((s.notesUploads.map (fun p => p.2)).sum
    + (s.docsUploads.map (fun p => p.2)).sum)
    + (s.notesFiles.map (fun p => contentSize p.2)).sum
    + (s.docsFiles.map (fun p => contentSize p.2)).sum

/-- The default `max_storage` argument: 2 GiB. -/
def DEFAULT_MAX_STORAGE : Nat := 2 * 1024 * 1024 * 1024

/-- Outcome of `check_storage_available`: `"OK"` or the quota message, which
carries the used/limit figures (the source formats them into MB for
display). -/
inductive CheckMsg where
  | ok
  | quotaExceeded (usedBytes limitBytes : Nat)
  deriving Repr, DecidableEq

/-- `FileStorage.check_storage_available`: walk the storage directories and
reject when `current + file_size > max_storage`. -/
def check_storage_available (s : Storage) (file_size max_storage : Nat) :
    Bool × CheckMsg :=
  let current := get_total_storage_size s
  if max_storage < current + file_size then
    (false, CheckMsg.quotaExceeded current max_storage)
  else (true, CheckMsg.ok)

/-- ASCII characters `werkzeug.utils.secure_filename` keeps. -/
def keepChar (c : Char) : Bool :=
  c.isAlphanum || c == '_' || c == '-' || c == '.'

/-- Characters stripped from both ends by `secure_filename`. -/
def stripChar (c : Char) : Bool := c == '.' || c == '_'

/-- Model of `werkzeug.utils.secure_filename` (third-party helper): keep
only ASCII alphanumerics and `_`, `-`, `.`, then strip leading/trailing
dots and underscores; path components cannot survive since `/` and `\` are
dropped. -/
def secure_filename (name : String) : String :=
  String.mk
    ((((name.toList.filter keepChar).dropWhile stripChar).reverse.dropWhile
      stripChar).reverse)

/-- Position of the last dot of `os.path.splitext`, requiring a non-dot
character somewhere before it (so `.bashrc` has no extension). -/
def splitextExt (name : String) : String :=
  let cs := name.toList
  let candidates :=
    (List.range cs.length).filter (fun i =>
      cs.getD i ' ' == '.' &&
      (List.range i).any (fun j => !(cs.getD j ' ' == '.')))
  match candidates.max? with
  | none => ""
  | some i => String.mk (cs.drop i)

/-- The uploaded file handed in by the web layer: original filename plus the
byte length measured by `seek(0, 2); tell()`. -/
structure UploadedFile where
  filename : String
  size : Nat
  deriving Repr, DecidableEq

/-- Result messages of `add_note_attachment` (the Python strings, with the
quota message carrying its used/limit figures). -/
inductive UploadMsg where
  | success
  | notFound
  | invalidName
  | quota (usedBytes limitBytes : Nat)
  deriving Repr, DecidableEq

/-- `FileStorage.add_note_attachment`: measure the incoming size, run the
quota check FIRST (before anything is written), then find the note, sanitize
the name, store the upload under `"<id>_<rand><ext>"`, append the attachment
record, bump `updated_at` and save. -/
def add_note_attachment (s : Storage) (note_id : Int) (f : UploadedFile)
    (rand : String) : (Bool × UploadMsg) × Storage :=
  match check_storage_available s f.size DEFAULT_MAX_STORAGE with
  | (false, CheckMsg.quotaExceeded used limit) =>
    ((false, UploadMsg.quota used limit), s)
  | _ =>
    let m := _load_metadata s
    match splitAtFirst (fun nm => nm.id == note_id) m.notes with
    | none => ((false, UploadMsg.notFound), s)
    | some (pre, nm, post) =>
      let original := secure_filename f.filename
      if original == "" then ((false, UploadMsg.invalidName), s)
      else
        let ext := splitextExt original
        let unique := toString note_id ++ "_" ++ rand ++ ext
        let s1 := { s with notesUploads := writeFile s.notesUploads unique f.size }
        let (t1, s2) := utcnow s1
        let (t2, s3) := utcnow s2
        let nmF := { nm with
          attachments := nm.attachments ++
            [{ filename := unique, original_filename := original,
               uploaded_at := t1 }],
          updated_at := t2 }
        ((true, UploadMsg.success),
          _save_metadata s3 { m with notes := pre ++ nmF :: post })

/-- `FileStorage.add_doc_attachment`: like the note version but with NO
quota check and a plain boolean result. -/
def add_doc_attachment (s : Storage) (doc_id : Int) (f : UploadedFile)
    (rand : String) : Bool × Storage :=
  let m := _load_metadata s
  match splitAtFirst (fun dm => dm.id == doc_id) m.docs with
  | none => (false, s)
  | some (pre, dm, post) =>
    let original := secure_filename f.filename
    if original == "" then (false, s)
    else
      let ext := splitextExt original
      let unique := toString doc_id ++ "_" ++ rand ++ ext
      let s1 := { s with docsUploads := writeFile s.docsUploads unique f.size }
      let (t1, s2) := utcnow s1
      let (t2, s3) := utcnow s2
      let dmF := { dm with
        attachments := dm.attachments ++
          [{ filename := unique, original_filename := original,
             uploaded_at := t1 }],
        updated_at := t2 }
      (true, _save_metadata s3 { m with docs := pre ++ dmF :: post })

/-- Whether a note record holds an attachment with the stored filename
(the body of the nested loop of `delete_note_attachment`). -/
def noteHasAttachment (note_id : Int) (fname : String) (nm : NoteMeta) : Bool :=
  nm.id == note_id && nm.attachments.any (fun a => a.filename == fname)

/-- The doc analogue of `noteHasAttachment`. -/
def docHasAttachment (doc_id : Int) (fname : String) (dm : DocMeta) : Bool :=
  dm.id == doc_id && dm.attachments.any (fun a => a.filename == fname)

/-- `FileStorage.delete_note_attachment`: acts on the first note holding the
id AND an attachment with the stored filename (records with the id but no
such attachment are passed over); the physical delete is wrapped in
`try/except`, so a failing `os.remove` is logged and swallowed while the
metadata entry is removed regardless. -/
def delete_note_attachment (s : Storage) (note_id : Int) (fname : String) :
    Bool × Storage :=
  let m := _load_metadata s
  match splitAtFirst (noteHasAttachment note_id fname) m.notes with
  | none => (false, s)
  | some (pre, nm, post) =>
    match splitAtFirst (fun a => a.filename == fname) nm.attachments with
    | none => (false, s)
    | some (apre, _, apost) =>
      let uploads := match removeIfExists s.failingRemovals s.notesUploads fname with
        | Except.error _ => s.notesUploads
        | Except.ok u => u
      let (now, s1) := utcnow { s with notesUploads := uploads }
      let nmF := { nm with attachments := apre ++ apost, updated_at := now }
      (true, _save_metadata s1 { m with notes := pre ++ nmF :: post })

/-- `FileStorage.delete_doc_attachment`: like the note version EXCEPT that
the physical `os.remove` is not guarded by `try/except`, so a failing
delete propagates and nothing is saved. -/
def delete_doc_attachment (s : Storage) (doc_id : Int) (fname : String) :
    Except String Bool × Storage :=
  let m := _load_metadata s
  match splitAtFirst (docHasAttachment doc_id fname) m.docs with
  | none => (Except.ok false, s)
  | some (pre, dm, post) =>
    match splitAtFirst (fun a => a.filename == fname) dm.attachments with
    | none => (Except.ok false, s)
    | some (apre, _, apost) =>
      match removeIfExists s.failingRemovals s.docsUploads fname with
      | Except.error e => (Except.error e, s)
      | Except.ok uploads =>
        let (now, s1) := utcnow { s with docsUploads := uploads }
        let dmF := { dm with attachments := apre ++ apost, updated_at := now }
        (true, _save_metadata s1 { m with docs := pre ++ dmF :: post })
        |> fun r => (Except.ok r.1, r.2)

/-- Boolean lexicographic order on character lists (Python string `<=` used
by `sorted`). -/
def charListLe : List Char → List Char → Bool
  | [], _ => true
  | _ :: _, [] => false
  | a :: as, b :: bs =>
    if a == b then charListLe as bs else decide (a < b)

/-- Python `sorted` over strings. -/
def strLe (a b : String) : Bool := charListLe a.toList b.toList

/-- `FileStorage.get_note_categories`: sorted distinct `category` values of
the note records (`sorted(list(set(...)))`). -/
def get_note_categories (s : Storage) : List String :=
  ((((_load_metadata s).notes).map (fun nm => nm.category)).dedup).mergeSort strLe

/-- `FileStorage.get_doc_categories`: the document analogue. -/
def get_doc_categories (s : Storage) : List String :=
  ((((_load_metadata s).docs).map (fun dm => dm.category)).dedup).mergeSort strLe

/-- A create call in a sequence of operations (the arguments of
`create_note` / `create_doc`). -/
inductive CreateOp where
  | note (title content category : String) (user_id : Option Int)
  | doc (title content category : String) (user_id : Option Int)
  deriving Repr, DecidableEq

/-- Runs a sequence of create calls, recording the id each one allocates. -/
def runCreates (s : Storage) : List CreateOp → Storage × List (Kind × Int)
  | [] => (s, [])
  | op :: rest =>
    match op with
    | CreateOp.note t c cat u =>
      let i := get_next_id s Kind.note
      let r := create_note s t c cat u
      let rr := runCreates r.2 rest
      (rr.1, (Kind.note, i) :: rr.2)
    | CreateOp.doc t c cat u =>
      let i := get_next_id s Kind.doc
      let r := create_doc s t c cat u
      let rr := runCreates r.2 rest
      (rr.1, (Kind.doc, i) :: rr.2)

/-- The id sequence the claim predicts: `1, 2, 3, …` within each kind,
independent of intermixing. -/
def expectedIds (nNotes nDocs : Nat) : List CreateOp → List (Kind × Int)
  | [] => []
  | CreateOp.note _ _ _ _ :: rest =>
    (Kind.note, ((nNotes : Int) + 1)) :: expectedIds (nNotes + 1) nDocs rest
  | CreateOp.doc _ _ _ _ :: rest =>
    (Kind.doc, ((nDocs : Int) + 1)) :: expectedIds nNotes (nDocs + 1) rest

/-- The integer ids `1, …, n`. -/
def idSeq : Nat → List Int
  | 0 => []
  | n + 1 => idSeq n ++ [(n : Int) + 1]

/-- An intermixed sequence of create calls. -/
def opsEx : List CreateOp :=
  [CreateOp.note "a" "x" "general" none,
   CreateOp.doc "b" "y" "general" none,
   CreateOp.note "c" "z" "general" none]

/-- The docs sequence of the metadata index as the code would load it. -/
def docsOf (s : Storage) : List DocMeta := (_load_metadata s).docs

/-- The notes sequence of the metadata index as the code would load it. -/
def notesOf (s : Storage) : List NoteMeta := (_load_metadata s).notes

/-- Category acceptance in the words of the listing claim: the filter
string must equal the record's category exactly, with `"all"` (or an absent
filter) meaning no filtering. -/
def claimCatOk (category : Option String) (c : String) : Bool :=
  match category with
  | none => true
  | some v => v == "all" || c == v

/-- Search acceptance in the words of the listing claim: title OR content
contains the query case-insensitively (an absent query filters nothing). -/
def claimQueryOk (q : Option String) (title content : String) : Bool :=
  match q with
  | none => true
  | some v =>
    pyIn (pyLower v) (pyLower title) || pyIn (pyLower v) (pyLower content)

/-- The set of notes the listing claim says `list` must return, in the
original metadata order: content file exists, category accepted, query
accepted. -/
def claimEligibleNotes (s : Storage) (category q : Option String) : List Note :=
  ((_load_metadata s).notes).filterMap (fun nm =>
    match lookupFile s.notesFiles nm.filename with
    | none => none
    | some content =>
      if claimCatOk category nm.category && claimQueryOk q nm.title content
      then some (noteFromMeta nm content) else none)

/-- The doc analogue of `claimEligibleNotes`. -/
def claimEligibleDocs (s : Storage) (category q : Option String) :
    List Document :=
  ((_load_metadata s).docs).filterMap (fun dm =>
    match lookupFile s.docsFiles dm.filename with
    | none => none
    | some content =>
      if claimCatOk category dm.category && claimQueryOk q dm.title content
      then some (docFromMeta dm content) else none)

/-- An empty, freshly initialised store whose clock readings are strictly
increasing (each `utcnow()` call lands on a later microsecond). -/
def sEmpty : Storage :=
  { metadata := some emptyMetadata, notesFiles := [], docsFiles := [],
    notesUploads := [], docsUploads := [], failingRemovals := [],
    readings := [10, 11, 12, 13, 14, 15], tick := 0 }

/-- An example note record. -/
def nMetaEx : NoteMeta :=
  { id := 1, title := "n", filename := "1.txt", category := "general",
    user_id := none, attachments := [], view_count := 0,
    created_at := 0, updated_at := 0, updated_by := none }

/-- An example doc record. -/
def dMetaEx : DocMeta :=
  { id := 1, title := "d", filename := "1.txt", category := "general",
    user_id := none, attachments := [], created_at := 0, updated_at := 0 }

/-- An example metadata index holding one note and one doc. -/
def mEx : Metadata := { notes := [nMetaEx], docs := [dMetaEx] }

/-- A store holding one note and one doc with their content files, and
2 GiB of already-used upload space. -/
def sQuota : Storage :=
  { metadata := some mEx,
    notesFiles := [("1.txt", "hello")], docsFiles := [("1.txt", "world")],
    notesUploads := [], docsUploads := [("big.bin", 2147483648)],
    failingRemovals := [], readings := [5, 6], tick := 0 }

/-- An example attachment record. -/
def attEx : AttachmentMeta :=
  { filename := "f.bin", original_filename := "f.bin", uploaded_at := 0 }

/-- A note record owning the example attachment. -/
def nMetaAtt : NoteMeta := { nMetaEx with attachments := [attEx] }

/-- A doc record owning the example attachment. -/
def dMetaAtt : DocMeta := { dMetaEx with attachments := [attEx] }

/-- The metadata index holding the attachment-owning records. -/
def mAtt : Metadata := { notes := [nMetaAtt], docs := [dMetaAtt] }

/-- A store where the example attachment's physical file exists but its
`os.remove` raises (e.g. a permission error). -/
def sAttFail : Storage :=
  { metadata := some mAtt,
    notesFiles := [("1.txt", "hello")], docsFiles := [("1.txt", "world")],
    notesUploads := [("f.bin", 5)], docsUploads := [("f.bin", 5)],
    failingRemovals := ["f.bin"], readings := [5, 6], tick := 0 }

/-- The same store with all physical deletes succeeding. -/
def sAttOk : Storage := { sAttFail with failingRemovals := [] }

/-- A missing-or-corrupt `metadata.json`. -/
def sCorrupt : Storage :=
  { metadata := none, notesFiles := [("1.txt", "hello")], docsFiles := [],
    notesUploads := [], docsUploads := [], failingRemovals := [],
    readings := [], tick := 0 }

/-- The note the round-trip claim produces on `sEmpty` (two successive
clock readings 10 and 11). -/
def noteC2 : Note :=
  { id := 1, title := "t", content := "c", category := "general",
    user_id := none, attachments := [], view_count := 0,
    created_at := 10, updated_at := 11, updated_by := none }

/-- The metadata record `create_note` appends (two successive clock
readings for `created_at` and `updated_at`). -/
def newNoteMeta (s : Storage) (t cat : String) (u : Option Int) : NoteMeta :=
  { id := get_next_id s Kind.note, title := t,
    filename := toString (get_next_id s Kind.note) ++ ".txt",
    category := cat, user_id := u, attachments := [], view_count := 0,
    created_at := s.readings.getD s.tick 0,
    updated_at := s.readings.getD (s.tick + 1) 0,
    updated_by := none }

/-- The metadata record `create_doc` appends. -/
def newDocMeta (s : Storage) (t cat : String) (u : Option Int) : DocMeta :=
  { id := get_next_id s Kind.doc, title := t,
    filename := toString (get_next_id s Kind.doc) ++ ".txt",
    category := cat, user_id := u, attachments := [],
    created_at := s.readings.getD s.tick 0,
    updated_at := s.readings.getD (s.tick + 1) 0 }

theorem splitAtFirst_eq_none {p : α → Bool} {l : List α} :
    splitAtFirst p l = none ↔ ∀ x ∈ l, p x = false := by
  induction l with
  | nil => simp [splitAtFirst]
  | cons x xs ih =>
    by_cases hx : p x
    · simp [splitAtFirst, hx]
    · simp [splitAtFirst, hx, Option.map_eq_none', ih, List.forall_mem_cons]

theorem splitAtFirst_eq_some {p : α → Bool} {l : List α} :
    ∀ {pre post : List α} {x : α},
    splitAtFirst p l = some (pre, x, post) →
    l = pre ++ x :: post ∧ p x = true ∧ ∀ y ∈ pre, p y = false := by
  induction l with
  | nil => intro pre post x h; simp [splitAtFirst] at h
  | cons a as ih =>
    intro pre post x h
    by_cases ha : p a
    · rw [splitAtFirst, if_pos ha] at h
      obtain ⟨h1, h2, h3⟩ := by simpa using h
      subst h1; subst h2; subst h3
      exact ⟨rfl, ha, by simp⟩
    · rw [splitAtFirst, if_neg ha] at h
      rcases e : splitAtFirst p as with _ | t
      · rw [e] at h; simp at h
      · rw [e] at h
        obtain ⟨t1, t2, t3⟩ := t
        obtain ⟨h1, h2, h3⟩ := by simpa using h
        obtain ⟨e1, e2, e3⟩ := ih e
        subst h2; subst h3
        subst h1
        refine ⟨by simpa using congrArg (a :: ·) e1, e2, ?_⟩
        intro y hy
        rcases List.mem_cons.mp hy with hy | hy
        · subst hy; simpa using ha
        · exact e3 y hy

theorem find?_append_of_none {p : α → Bool} {l1 l2 : List α}
    (h : ∀ x ∈ l1, p x = false) :
    (l1 ++ l2).find? p = l2.find? p := by
  have h1 : l1.find? p = none :=
    List.find?_eq_none.mpr (by intro x hx; simp [h x hx])
  simp [List.find?_append, h1]

theorem fileExists_eq_isSome (files : List (String × α)) (n : String) :
    fileExists files n = (lookupFile files n).isSome := by
  induction files with
  | nil => rfl
  | cons a as ih =>
    by_cases ha : a.1 == n
    · simp [fileExists, lookupFile, List.find?_cons, ha]
    · simp only [fileExists, lookupFile, List.any_cons, List.find?_cons] at *
      simp [ha, ih]

theorem lookupFile_writeFile_self (files : List (String × α)) (n : String)
    (c : α) : lookupFile (writeFile files n c) n = some c := by
  unfold writeFile
  by_cases h : fileExists files n
  · rw [if_pos h]
    induction files with
    | nil => simp [fileExists] at h
    | cons a as ih =>
      by_cases ha : a.1 == n
      · have ha' : a.1 = n := by simpa using ha
        simp [lookupFile, List.find?_cons, ha']
      · have h' : fileExists as n = true := by
          simpa [fileExists, List.any_cons, ha] using h
        rw [List.map_cons, if_neg (by simpa using ha)]
        simpa [lookupFile, List.find?_cons, ha] using ih h'
  · rw [if_neg h]
    have h1 : files.find? (fun p => p.1 == n) = none := by
      rw [List.find?_eq_none]
      intro x hx hc
      exact h (by unfold fileExists; rw [List.any_eq_true]; exact ⟨x, hx, hc⟩)
    simp [lookupFile, List.find?_append, h1, List.find?_cons]

theorem fileExists_writeFile_self (files : List (String × α)) (n : String)
    (c : α) : fileExists (writeFile files n c) n = true := by
  rw [fileExists_eq_isSome, lookupFile_writeFile_self]
  rfl

/-- C3: loading the metadata index never raises: on a missing file or any
parse failure `_load_metadata` returns the empty index `{notes: [], docs:
[]}`, so every read operation invoked over a corrupt metadata file — both
listings, both by-id lookups, both category listings — yields an empty
result set rather than an error. -/
theorem C3_corrupt_metadata_reads_empty (s : Storage)
    (h : s.metadata = none) :
    _load_metadata s = emptyMetadata ∧
    (∀ c q, get_all_notes s c q = []) ∧
    (∀ c q, get_all_docs s c q = []) ∧
    (∀ i, get_note s i = none) ∧
    (∀ i, get_doc s i = none) ∧
    get_note_categories s = [] ∧
    get_doc_categories s = [] := by
  have hl : _load_metadata s = emptyMetadata := by
    simp [_load_metadata, h]
  refine ⟨hl, ?_, ?_, ?_, ?_, ?_, ?_⟩
  · intro c q; simp [get_all_notes, hl, emptyMetadata, collectNotes]
  · intro c q; simp [get_all_docs, hl, emptyMetadata, collectDocs]
  · intro i; simp [get_note, hl, emptyMetadata]
  · intro i; simp [get_doc, hl, emptyMetadata]
  · simp [get_note_categories, hl, emptyMetadata]
  · simp [get_doc_categories, hl, emptyMetadata]

/-- Witness for C3 at the concrete corrupt store. -/
theorem C3_witness :
    sCorrupt.metadata = none ∧
    (_load_metadata sCorrupt = emptyMetadata ∧
    (∀ c q, get_all_notes sCorrupt c q = []) ∧
    (∀ c q, get_all_docs sCorrupt c q = []) ∧
    (∀ i, get_note sCorrupt i = none) ∧
    (∀ i, get_doc sCorrupt i = none) ∧
    get_note_categories sCorrupt = [] ∧
    get_doc_categories sCorrupt = []) :=
  ⟨rfl, C3_corrupt_metadata_reads_empty sCorrupt rfl⟩

/-- C8: `increment_note_view_count` on an existing note returns `True` and
persists an index identical except that the first matching record's
`view_count` grew by exactly 1 — every other field, every other record, the
docs list, all files and the clock are untouched, in particular
`updated_at`; on an unmatched id it returns `False` and changes nothing. -/
theorem C8_increment_view_count (s : Storage) (m : Metadata) (i : Int)
    (hm : s.metadata = some m) :
    ((∀ nm ∈ m.notes, (nm.id == i) = false) →
      increment_note_view_count s i = (false, s)) ∧
    (∀ pre nm post,
      splitAtFirst (fun nm => nm.id == i) m.notes = some (pre, nm, post) →
      increment_note_view_count s i = (true, { s with metadata := some ({ m with notes := pre ++ { nm with view_count := nm.view_count + 1 } :: post }) })) := by
  have hl : _load_metadata s = m := by simp [_load_metadata, hm]
  constructor
  · intro h
    simp only [increment_note_view_count, hl]
    rw [splitAtFirst_eq_none.mpr h]
  · intro pre nm post h
    simp only [increment_note_view_count, hl]
    rw [h]
    rfl

/-- Witness for C8: incrementing note 1 of the one-note store bumps its
view count to 1 and leaves everything else, `updated_at` included, as it
was. -/
theorem C8_witness :
    sQuota.metadata = some mEx ∧
    ((∀ nm ∈ mEx.notes, (nm.id == (1 : Int)) = false) →
      increment_note_view_count sQuota 1 = (false, sQuota)) ∧
    (∀ pre nm post,
      splitAtFirst (fun nm => nm.id == (1 : Int)) mEx.notes = some (pre, nm, post) →
      increment_note_view_count sQuota 1 = (true, { sQuota with metadata := some ({ mEx with notes := pre ++ { nm with view_count := nm.view_count + 1 } :: post }) })) :=
  ⟨rfl, C8_increment_view_count sQuota mEx 1 rfl⟩

theorem le_foldl_max (xs : List Int) (x : Int) :
    x ≤ xs.foldl max x ∧ ∀ y ∈ xs, y ≤ xs.foldl max x := by
  induction xs generalizing x with
  | nil => simp
  | cons a as ih =>
    refine ⟨?_, ?_⟩
    · calc x ≤ max x a := le_max_left x a
        _ ≤ as.foldl max (max x a) := (ih (max x a)).1
    · intro y hy
      rcases List.mem_cons.mp hy with hy | hy
      · subst hy
        calc y ≤ max x y := le_max_right x y
          _ ≤ as.foldl max (max x y) := (ih (max x y)).1
      · exact (ih (max x a)).2 y hy

theorem foldl_max_mem (xs : List Int) (x : Int) :
    xs.foldl max x = x ∨ xs.foldl max x ∈ xs := by
  induction xs generalizing x with
  | nil => simp
  | cons a as ih =>
    rw [List.foldl_cons]
    rcases ih (max x a) with h | h
    · rcases max_choice x a with he | he
      · left; rw [h, he]
      · right; rw [h, he]; exact List.mem_cons_self a as
    · right; exact List.mem_cons_of_mem a h

theorem foldl_max_eq {x b : Int} {xs : List Int}
    (hb : b = x ∨ b ∈ xs) (hall : ∀ y, (y = x ∨ y ∈ xs) → y ≤ b) :
    xs.foldl max x = b := by
  have h1 : xs.foldl max x ≤ b := by
    rcases foldl_max_mem xs x with h | h
    · exact hall _ (Or.inl h)
    · exact hall _ (Or.inr h)
  have h2 : b ≤ xs.foldl max x := by
    rcases hb with h | h
    · rw [h]; exact (le_foldl_max xs x).1
    · exact (le_foldl_max xs x).2 b h
  omega

theorem idSeq_length (n : Nat) : (idSeq n).length = n := by
  induction n with
  | zero => rfl
  | succ k ih => simp [idSeq, ih]

theorem mem_idSeq_le {n : Nat} {y : Int} (h : y ∈ idSeq n) : y ≤ (n : Int) := by
  induction n with
  | zero => simp [idSeq] at h
  | succ k ih =>
    simp only [idSeq, List.mem_append, List.mem_singleton] at h
    rcases h with h | h
    · have := ih h; push_cast; omega
    · subst h; push_cast; omega

theorem last_mem_idSeq (n : Nat) (h : 1 ≤ n) : (n : Int) ∈ idSeq n := by
  cases n with
  | zero => omega
  | succ k => simp [idSeq]

theorem get_next_id_of_idSeq_note (s : Storage) (n : Nat)
    (h : ((_load_metadata s).notes).map (fun nm => nm.id) = idSeq n) :
    get_next_id s Kind.note = (n : Int) + 1 := by
  rcases e : idSeq n with _ | ⟨x, xs⟩
  · have hn : n = 0 := by
      have := congrArg List.length e
      simpa [idSeq_length] using this
    subst hn
    rw [e] at h
    simp [get_next_id, h]
  · have hn : 1 ≤ n := by
      have := congrArg List.length e
      simp [idSeq_length] at this
      omega
    rw [e] at h
    simp only [get_next_id, h]
    have hfold : xs.foldl max x = (n : Int) := by
      apply foldl_max_eq
      · have hmem : (n : Int) ∈ idSeq n := last_mem_idSeq n hn
        rw [e] at hmem
        rcases List.mem_cons.mp hmem with hh | hh
        · exact Or.inl hh
        · exact Or.inr hh
      · intro y hy
        have : y ∈ idSeq n := by
          rw [e]
          rcases hy with hy | hy
          · rw [hy]; exact List.mem_cons_self x xs
          · exact List.mem_cons_of_mem x hy
        exact mem_idSeq_le this
    rw [hfold]

theorem get_next_id_of_idSeq_doc (s : Storage) (n : Nat)
    (h : ((_load_metadata s).docs).map (fun dm => dm.id) = idSeq n) :
    get_next_id s Kind.doc = (n : Int) + 1 := by
  rcases e : idSeq n with _ | ⟨x, xs⟩
  · have hn : n = 0 := by
      have := congrArg List.length e
      simpa [idSeq_length] using this
    subst hn
    rw [e] at h
    simp [get_next_id, h]
  · have hn : 1 ≤ n := by
      have := congrArg List.length e
      simp [idSeq_length] at this
      omega
    rw [e] at h
    simp only [get_next_id, h]
    have hfold : xs.foldl max x = (n : Int) := by
      apply foldl_max_eq
      · have hmem : (n : Int) ∈ idSeq n := last_mem_idSeq n hn
        rw [e] at hmem
        rcases List.mem_cons.mp hmem with hh | hh
        · exact Or.inl hh
        · exact Or.inr hh
      · intro y hy
        have : y ∈ idSeq n := by
          rw [e]
          rcases hy with hy | hy
          · rw [hy]; exact List.mem_cons_self x xs
          · exact List.mem_cons_of_mem x hy
        exact mem_idSeq_le this
    rw [hfold]

theorem get_next_id_note_spec (s : Storage) :
    (((_load_metadata s).notes = []) → get_next_id s Kind.note = 1) ∧
    (∀ nm ∈ (_load_metadata s).notes, nm.id < get_next_id s Kind.note) ∧
    ((_load_metadata s).notes ≠ [] →
      ∃ nm ∈ (_load_metadata s).notes, get_next_id s Kind.note = nm.id + 1) := by
  cases e : (_load_metadata s).notes with
  | nil => simp [get_next_id, e]
  | cons a as =>
    have hids : ((_load_metadata s).notes).map (fun nm => nm.id)
        = a.id :: as.map (fun nm => nm.id) := by rw [e]; rfl
    have hg : get_next_id s Kind.note
        = (as.map (fun nm => nm.id)).foldl max a.id + 1 := by
      simp only [get_next_id, hids]
    refine ⟨by simp [e], ?_, ?_⟩
    · intro nm hmem
      rw [hg]
      rcases List.mem_cons.mp hmem with h | h
      · rw [h]
        have := (le_foldl_max (as.map (fun y => y.id)) a.id).1
        omega
      · have := (le_foldl_max (as.map (fun y => y.id)) a.id).2 nm.id
          (List.mem_map.mpr ⟨nm, h, rfl⟩)
        omega
    · intro _
      rcases foldl_max_mem (as.map (fun y => y.id)) a.id with h | h
      · exact ⟨a, List.mem_cons_self a as, by rw [hg, h]⟩
      · obtain ⟨nm, hnm, hid⟩ := List.mem_map.mp h
        exact ⟨nm, List.mem_cons_of_mem a hnm,
          by rw [hg, hid]⟩

theorem get_next_id_doc_spec (s : Storage) :
    (((_load_metadata s).docs = []) → get_next_id s Kind.doc = 1) ∧
    (∀ dm ∈ (_load_metadata s).docs, dm.id < get_next_id s Kind.doc) ∧
    ((_load_metadata s).docs ≠ [] →
      ∃ dm ∈ (_load_metadata s).docs, get_next_id s Kind.doc = dm.id + 1) := by
  cases e : (_load_metadata s).docs with
  | nil => simp [get_next_id, e]
  | cons a as =>
    have hids : ((_load_metadata s).docs).map (fun dm => dm.id)
        = a.id :: as.map (fun dm => dm.id) := by rw [e]; rfl
    have hg : get_next_id s Kind.doc
        = (as.map (fun dm => dm.id)).foldl max a.id + 1 := by
      simp only [get_next_id, hids]
    refine ⟨by simp [e], ?_, ?_⟩
    · intro dm hmem
      rw [hg]
      rcases List.mem_cons.mp hmem with h | h
      · rw [h]
        have := (le_foldl_max (as.map (fun y => y.id)) a.id).1
        omega
      · have := (le_foldl_max (as.map (fun y => y.id)) a.id).2 dm.id
          (List.mem_map.mpr ⟨dm, h, rfl⟩)
        omega
    · intro _
      rcases foldl_max_mem (as.map (fun y => y.id)) a.id with h | h
      · exact ⟨a, List.mem_cons_self a as, by rw [hg, h]⟩
      · obtain ⟨dm, hdm, hid⟩ := List.mem_map.mp h
        exact ⟨dm, List.mem_cons_of_mem a hdm,
          by rw [hg, hid]⟩

theorem create_note_metadata (s : Storage) (t c cat : String)
    (u : Option Int) :
    _load_metadata (create_note s t c cat u).2 =
      { _load_metadata s with notes := (_load_metadata s).notes ++
        [newNoteMeta s t cat u] } := rfl

theorem create_doc_metadata (s : Storage) (t c cat : String)
    (u : Option Int) :
    _load_metadata (create_doc s t c cat u).2 =
      { _load_metadata s with docs := (_load_metadata s).docs ++
        [newDocMeta s t cat u] } := rfl

theorem runCreates_ids (ops : List CreateOp) :
    ∀ (s : Storage) (nN nD : Nat),
    ((_load_metadata s).notes).map (fun nm => nm.id) = idSeq nN →
    ((_load_metadata s).docs).map (fun dm => dm.id) = idSeq nD →
    (runCreates s ops).2 = expectedIds nN nD ops := by
  induction ops with
  | nil => intro s nN nD hn hd; rfl
  | cons op rest ih =>
    intro s nN nD hn hd
    cases op with
    | note t c cat u =>
      have hid : get_next_id s Kind.note = (nN : Int) + 1 :=
        get_next_id_of_idSeq_note s nN hn
      have hn' : ((_load_metadata (create_note s t c cat u).2).notes).map
          (fun nm => nm.id) = idSeq (nN + 1) := by
        rw [create_note_metadata]
        simp only [List.map_append, hn, List.map_cons, List.map_nil,
          newNoteMeta, hid]
        simp [idSeq]
      have hd' : ((_load_metadata (create_note s t c cat u).2).docs).map
          (fun dm => dm.id) = idSeq nD := by
        rw [create_note_metadata]
        exact hd
      simp only [runCreates, expectedIds, hid, ih (create_note s t c cat u).2
        (nN + 1) nD hn' hd']
    | doc t c cat u =>
      have hid : get_next_id s Kind.doc = (nD : Int) + 1 :=
        get_next_id_of_idSeq_doc s nD hd
      have hn' : ((_load_metadata (create_doc s t c cat u).2).notes).map
          (fun nm => nm.id) = idSeq nN := by
        rw [create_doc_metadata]
        exact hn
      have hd' : ((_load_metadata (create_doc s t c cat u).2).docs).map
          (fun dm => dm.id) = idSeq (nD + 1) := by
        rw [create_doc_metadata]
        simp only [List.map_append, hd, List.map_cons, List.map_nil,
          newDocMeta, hid]
        simp [idSeq]
      simp only [runCreates, expectedIds, hid, ih (create_doc s t c cat u).2
        nN (nD + 1) hn' hd']

/-- C4: the id allocator returns `max(existing ids) + 1` for its kind, or 1
when that kind's record list is empty; hence for every sequence of create
operations starting from an empty store the ids allocated within each kind
are `1, 2, 3, …` in call order, independently of how notes and docs are
intermixed. -/
theorem C4_id_allocation :
    (∀ s : Storage,
      (((_load_metadata s).notes = []) → get_next_id s Kind.note = 1) ∧
      (∀ nm ∈ (_load_metadata s).notes, nm.id < get_next_id s Kind.note) ∧
      ((_load_metadata s).notes ≠ [] →
        ∃ nm ∈ (_load_metadata s).notes,
          get_next_id s Kind.note = nm.id + 1) ∧
      (((_load_metadata s).docs = []) → get_next_id s Kind.doc = 1) ∧
      (∀ dm ∈ (_load_metadata s).docs, dm.id < get_next_id s Kind.doc) ∧
      ((_load_metadata s).docs ≠ [] →
        ∃ dm ∈ (_load_metadata s).docs,
          get_next_id s Kind.doc = dm.id + 1)) ∧
    (∀ (s : Storage) (ops : List CreateOp),
      _load_metadata s = emptyMetadata →
      (runCreates s ops).2 = expectedIds 0 0 ops) := by
  constructor
  · intro s
    obtain ⟨a1, a2, a3⟩ := get_next_id_note_spec s
    obtain ⟨b1, b2, b3⟩ := get_next_id_doc_spec s
    exact ⟨a1, a2, a3, b1, b2, b3⟩
  · intro s ops h
    apply runCreates_ids
    · rw [h]; rfl
    · rw [h]; rfl

/-- Witness for C4: three intermixed creates on the empty store allocate
note ids 1, 2 and doc id 1. -/
theorem C4_witness :
    _load_metadata sEmpty = emptyMetadata ∧
    (runCreates sEmpty opsEx).2 = expectedIds 0 0 opsEx :=
  ⟨rfl, C4_id_allocation.2 sEmpty opsEx rfl⟩


theorem get_note_after_create (s : Storage) (t c cat : String)
    (u : Option Int) :
    (create_note s t c cat u).1 = some (noteFromMeta (newNoteMeta s t cat u) c)
    ∧ (create_note s t c cat u).1 =
      get_note (create_note s t c cat u).2 (get_next_id s Kind.note) := by
  have hsnd : (create_note s t c cat u).1 =
      get_note (create_note s t c cat u).2 (get_next_id s Kind.note) := rfl
  refine ⟨?_, hsnd⟩
  rw [hsnd]
  have hfiles : (create_note s t c cat u).2.notesFiles =
      writeFile s.notesFiles (toString (get_next_id s Kind.note) ++ ".txt") c :=
    rfl
  have hpred : ∀ x ∈ (_load_metadata s).notes,
      (x.id == get_next_id s Kind.note &&
        fileExists (create_note s t c cat u).2.notesFiles x.filename)
        = false := by
    intro x hx
    have hlt := (get_next_id_note_spec s).2.1 x hx
    have hne : (x.id == get_next_id s Kind.note) = false := by
      simp only [beq_eq_false_iff_ne, ne_eq]
      omega
    rw [hne, Bool.false_and]
  have hpnm : ((newNoteMeta s t cat u).id == get_next_id s Kind.note &&
      fileExists (create_note s t c cat u).2.notesFiles
        (newNoteMeta s t cat u).filename) = true := by
    rw [hfiles]
    show (get_next_id s Kind.note == get_next_id s Kind.note &&
      fileExists (writeFile s.notesFiles
        (toString (get_next_id s Kind.note) ++ ".txt") c)
        (toString (get_next_id s Kind.note) ++ ".txt")) = true
    rw [fileExists_writeFile_self]
    simp
  have hfind : (((_load_metadata s).notes ++ [newNoteMeta s t cat u]).find?
      (fun x => x.id == get_next_id s Kind.note &&
        fileExists (create_note s t c cat u).2.notesFiles x.filename))
      = some (newNoteMeta s t cat u) := by
    rw [find?_append_of_none hpred]
    exact List.find?_cons_of_pos [] hpnm
  have hlook : lookupFile (create_note s t c cat u).2.notesFiles
      (newNoteMeta s t cat u).filename = some c := by
    rw [hfiles]
    show lookupFile (writeFile s.notesFiles
      (toString (get_next_id s Kind.note) ++ ".txt") c)
      (toString (get_next_id s Kind.note) ++ ".txt") = some c
    exact lookupFile_writeFile_self _ _ _
  simp only [get_note, create_note_metadata, hfind, hlook]

theorem get_doc_after_create (s : Storage) (t c cat : String)
    (u : Option Int) :
    (create_doc s t c cat u).1 = some (docFromMeta (newDocMeta s t cat u) c)
    ∧ (create_doc s t c cat u).1 =
      get_doc (create_doc s t c cat u).2 (get_next_id s Kind.doc) := by
  have hsnd : (create_doc s t c cat u).1 =
      get_doc (create_doc s t c cat u).2 (get_next_id s Kind.doc) := rfl
  refine ⟨?_, hsnd⟩
  rw [hsnd]
  have hfiles : (create_doc s t c cat u).2.docsFiles =
      writeFile s.docsFiles (toString (get_next_id s Kind.doc) ++ ".txt") c :=
    rfl
  have hpred : ∀ x ∈ (_load_metadata s).docs,
      (x.id == get_next_id s Kind.doc &&
        fileExists (create_doc s t c cat u).2.docsFiles x.filename)
        = false := by
    intro x hx
    have hlt := (get_next_id_doc_spec s).2.1 x hx
    have hne : (x.id == get_next_id s Kind.doc) = false := by
      simp only [beq_eq_false_iff_ne, ne_eq]
      omega
    rw [hne, Bool.false_and]
  have hpnm : ((newDocMeta s t cat u).id == get_next_id s Kind.doc &&
      fileExists (create_doc s t c cat u).2.docsFiles
        (newDocMeta s t cat u).filename) = true := by
    rw [hfiles]
    show (get_next_id s Kind.doc == get_next_id s Kind.doc &&
      fileExists (writeFile s.docsFiles
        (toString (get_next_id s Kind.doc) ++ ".txt") c)
        (toString (get_next_id s Kind.doc) ++ ".txt")) = true
    rw [fileExists_writeFile_self]
    simp
  have hfind : (((_load_metadata s).docs ++ [newDocMeta s t cat u]).find?
      (fun x => x.id == get_next_id s Kind.doc &&
        fileExists (create_doc s t c cat u).2.docsFiles x.filename))
      = some (newDocMeta s t cat u) := by
    rw [find?_append_of_none hpred]
    exact List.find?_cons_of_pos [] hpnm
  have hlook : lookupFile (create_doc s t c cat u).2.docsFiles
      (newDocMeta s t cat u).filename = some c := by
    rw [hfiles]
    show lookupFile (writeFile s.docsFiles
      (toString (get_next_id s Kind.doc) ++ ".txt") c)
      (toString (get_next_id s Kind.doc) ++ ".txt") = some c
    exact lookupFile_writeFile_self _ _ _
  simp only [get_doc, create_doc_metadata, hfind, hlook]

/-- C2 (amended): create followed by get of the returned id yields an
entity whose `title` and `content` equal the inputs, whose attachments list
is empty, whose `view_count` is 0 for notes, and whose `created_at` and
`updated_at` are the two successive clock readings taken during create —
so `created_at ≤ updated_at` whenever the clock is nondecreasing, with
equality exactly when the two readings coincide (the code calls
`datetime.utcnow()` twice, so equality is not guaranteed). -/
theorem C2_create_get_roundtrip (s : Storage) (t c cat : String)
    (u : Option Int)
    (hmono : s.readings.getD s.tick 0 ≤ s.readings.getD (s.tick + 1) 0) :
    (∃ n : Note, (create_note s t c cat u).1 = some n ∧
      get_note (create_note s t c cat u).2 n.id = some n ∧
      n.title = t ∧ n.content = c ∧ n.category = cat ∧
      n.attachments = [] ∧ n.view_count = 0 ∧
      n.created_at ≤ n.updated_at ∧
      (s.readings.getD s.tick 0 = s.readings.getD (s.tick + 1) 0 →
        n.created_at = n.updated_at)) ∧
    (∃ d : Document, (create_doc s t c cat u).1 = some d ∧
      get_doc (create_doc s t c cat u).2 d.id = some d ∧
      d.title = t ∧ d.content = c ∧ d.category = cat ∧
      d.attachments = [] ∧
      d.created_at ≤ d.updated_at ∧
      (s.readings.getD s.tick 0 = s.readings.getD (s.tick + 1) 0 →
        d.created_at = d.updated_at)) := by
  obtain ⟨h1, h2⟩ := get_note_after_create s t c cat u
  obtain ⟨g1, g2⟩ := get_doc_after_create s t c cat u
  constructor
  · refine ⟨noteFromMeta (newNoteMeta s t cat u) c, h1, ?_, rfl, rfl, rfl,
      rfl, rfl, hmono, fun h => h⟩
    have hid : (noteFromMeta (newNoteMeta s t cat u) c).id =
        get_next_id s Kind.note := rfl
    rw [hid, ← h2, h1]
  · refine ⟨docFromMeta (newDocMeta s t cat u) c, g1, ?_, rfl, rfl, rfl,
      rfl, hmono, fun h => h⟩
    have hid : (docFromMeta (newDocMeta s t cat u) c).id =
        get_next_id s Kind.doc := rfl
    rw [hid, ← g2, g1]

/-- Witness for C2 on the empty store with strictly increasing clock. -/
theorem C2_witness :
    sEmpty.readings.getD sEmpty.tick 0 ≤
      sEmpty.readings.getD (sEmpty.tick + 1) 0 ∧
    ((∃ n : Note, (create_note sEmpty "t" "c" "general" none).1 = some n ∧
      get_note (create_note sEmpty "t" "c" "general" none).2 n.id = some n ∧
      n.title = "t" ∧ n.content = "c" ∧ n.category = "general" ∧
      n.attachments = [] ∧ n.view_count = 0 ∧
      n.created_at ≤ n.updated_at ∧
      (sEmpty.readings.getD sEmpty.tick 0 =
        sEmpty.readings.getD (sEmpty.tick + 1) 0 →
        n.created_at = n.updated_at)) ∧
    (∃ d : Document, (create_doc sEmpty "t" "c" "general" none).1 = some d ∧
      get_doc (create_doc sEmpty "t" "c" "general" none).2 d.id = some d ∧
      d.title = "t" ∧ d.content = "c" ∧ d.category = "general" ∧
      d.attachments = [] ∧
      d.created_at ≤ d.updated_at ∧
      (sEmpty.readings.getD sEmpty.tick 0 =
        sEmpty.readings.getD (sEmpty.tick + 1) 0 →
        d.created_at = d.updated_at))) :=
  ⟨by decide, C2_create_get_roundtrip sEmpty "t" "c" "general" none (by decide)⟩

/-- Counterexample to C2 as stated: when the two `utcnow()` calls of
`create_note` land on different microseconds (clock readings 10 then 11),
the entity returned by create-then-get has `created_at ≠ updated_at`,
against the claim's `created_at == updated_at`. -/
theorem C2_counterexample :
    (create_note sEmpty "t" "c" "general" none).1 = some noteC2 ∧
    noteC2.created_at ≠ noteC2.updated_at := by
  constructor
  · rfl
  · decide

theorem find?_middle {p : α → Bool} {pre post : List α} {x : α}
    (hpre : ∀ y ∈ pre, p y = false) (hx : p x = true) :
    (pre ++ x :: post).find? p = some x := by
  rw [find?_append_of_none hpre]
  exact List.find?_cons_of_pos post hx

/-- C6: update with all optional fields absent returns `False` and leaves
the store (notably `updated_at`, the files and the clock) unchanged; update
of an unmatched id returns `False` without modifying any state; and when at
least one entity field (title, content or category) is supplied for an
existing record, the call returns `True`, sets the record's `updated_at` to
the current clock reading and persists the index. -/
theorem C6_update (s : Storage) (m : Metadata) (i : Int)
    (t c cat : Option String) (u : Option Int)
    (hm : s.metadata = some m) :
    (update_note s i none none none u = (false, s)) ∧
    (update_doc s i none none none = (false, s)) ∧
    ((∀ nm ∈ m.notes, (nm.id == i) = false) →
      update_note s i t c cat u = (false, s)) ∧
    ((∀ dm ∈ m.docs, (dm.id == i) = false) →
      update_doc s i t c cat = (false, s)) ∧
    (∀ pre nm post,
      splitAtFirst (fun nm => nm.id == i) m.notes = some (pre, nm, post) →
      (t.isSome || cat.isSome || c.isSome) = true →
      (update_note s i t c cat u).1 = true ∧
      ∃ m' nm', (update_note s i t c cat u).2.metadata = some m' ∧
        m'.notes.find? (fun x => x.id == i) = some nm' ∧
        nm'.updated_at = s.readings.getD s.tick 0) ∧
    (∀ pre dm post,
      splitAtFirst (fun dm => dm.id == i) m.docs = some (pre, dm, post) →
      (t.isSome || cat.isSome || c.isSome) = true →
      (update_doc s i t c cat).1 = true ∧
      ∃ m' dm', (update_doc s i t c cat).2.metadata = some m' ∧
        m'.docs.find? (fun x => x.id == i) = some dm' ∧
        dm'.updated_at = s.readings.getD s.tick 0) := by
  have hl : _load_metadata s = m := by simp [_load_metadata, hm]
  refine ⟨?_, ?_, ?_, ?_, ?_, ?_⟩
  · rcases e : splitAtFirst (fun nm => nm.id == i) m.notes with _ | t3
    · simp [update_note, hl, e]
    · obtain ⟨pre, nm, post⟩ := t3
      simp [update_note, hl, e]
  · rcases e : splitAtFirst (fun dm => dm.id == i) m.docs with _ | t3
    · simp [update_doc, hl, e]
    · obtain ⟨pre, dm, post⟩ := t3
      simp [update_doc, hl, e]
  · intro h
    simp only [update_note, hl]
    rw [splitAtFirst_eq_none.mpr h]
  · intro h
    simp only [update_doc, hl]
    rw [splitAtFirst_eq_none.mpr h]
  · intro pre nm post hsp hupd
    obtain ⟨heq, hpx, hpre⟩ := splitAtFirst_eq_some hsp
    rcases t with _ | tv <;> rcases cat with _ | catv <;> rcases c with _ | cv <;>
        simp only [update_note, hl, hsp, _save_metadata] <;>
        try exact ⟨rfl, _, _, rfl, find?_middle hpre (by exact hpx), rfl⟩
    all_goals simp at hupd
  · intro pre dm post hsp hupd
    obtain ⟨heq, hpx, hpre⟩ := splitAtFirst_eq_some hsp
    rcases t with _ | tv <;> rcases cat with _ | catv <;> rcases c with _ | cv <;>
        simp only [update_doc, hl, hsp, _save_metadata] <;>
        try exact ⟨rfl, _, _, rfl, find?_middle hpre (by exact hpx), rfl⟩
    all_goals simp at hupd

/-- Witness for C6 on the one-note one-doc store with a title-only update. -/
theorem C6_witness :
    sQuota.metadata = some mEx ∧
    ((update_note sQuota 1 none none none none = (false, sQuota)) ∧
    (update_doc sQuota 1 none none none = (false, sQuota)) ∧
    ((∀ nm ∈ mEx.notes, (nm.id == (1 : Int)) = false) →
      update_note sQuota 1 (some "T") none none none = (false, sQuota)) ∧
    ((∀ dm ∈ mEx.docs, (dm.id == (1 : Int)) = false) →
      update_doc sQuota 1 (some "T") none none = (false, sQuota)) ∧
    (∀ pre nm post,
      splitAtFirst (fun nm => nm.id == (1 : Int)) mEx.notes
        = some (pre, nm, post) →
      ((some "T").isSome || (none : Option String).isSome ||
        (none : Option String).isSome) = true →
      (update_note sQuota 1 (some "T") none none none).1 = true ∧
      ∃ m' nm',
        (update_note sQuota 1 (some "T") none none none).2.metadata
          = some m' ∧
        m'.notes.find? (fun x => x.id == (1 : Int)) = some nm' ∧
        nm'.updated_at = sQuota.readings.getD sQuota.tick 0) ∧
    (∀ pre dm post,
      splitAtFirst (fun dm => dm.id == (1 : Int)) mEx.docs
        = some (pre, dm, post) →
      ((some "T").isSome || (none : Option String).isSome ||
        (none : Option String).isSome) = true →
      (update_doc sQuota 1 (some "T") none none).1 = true ∧
      ∃ m' dm',
        (update_doc sQuota 1 (some "T") none none).2.metadata = some m' ∧
        m'.docs.find? (fun x => x.id == (1 : Int)) = some dm' ∧
        dm'.updated_at = sQuota.readings.getD sQuota.tick 0)) :=
  ⟨rfl, C6_update sQuota mEx 1 (some "T") none none none rfl⟩

/-- C1 (amended): adding a NOTE attachment first computes total storage
usage by walking the uploads, notes and docs directories and, whenever
`currentUsage + incomingSize` exceeds the 2 GiB default quota, rejects the
upload with a quota error carrying the used/limit figures, writes no
attachment file and leaves the whole state — metadata index included —
unchanged.  Adding a DOC attachment performs NO quota check at all: for an
existing doc and a valid filename the upload file is written and the index
updated regardless of current usage. -/
theorem C1_quota_note_only :
    (∀ (s : Storage) (i : Int) (f : UploadedFile) (rand : String),
      DEFAULT_MAX_STORAGE < get_total_storage_size s + f.size →
      add_note_attachment s i f rand =
        ((false, UploadMsg.quota (get_total_storage_size s)
          DEFAULT_MAX_STORAGE), s)) ∧
    (∀ (s : Storage) (m : Metadata) (i : Int) (f : UploadedFile)
      (rand : String) (pre : List DocMeta) (dm : DocMeta)
      (post : List DocMeta),
      s.metadata = some m →
      splitAtFirst (fun dm => dm.id == i) m.docs = some (pre, dm, post) →
      (secure_filename f.filename == "") = false →
      (add_doc_attachment s i f rand).1 = true ∧
      fileExists (add_doc_attachment s i f rand).2.docsUploads
        (toString i ++ "_" ++ rand ++
          splitextExt (secure_filename f.filename)) = true ∧
      (add_doc_attachment s i f rand).2.metadata =
        some { m with docs := pre ++ { dm with attachments := dm.attachments ++ [{ filename := toString i ++ "_" ++ rand ++ splitextExt (secure_filename f.filename), original_filename := secure_filename f.filename, uploaded_at := s.readings.getD s.tick 0 }], updated_at := s.readings.getD (s.tick + 1) 0 } :: post }) := by
  constructor
  · intro s i f rand h
    have hc : check_storage_available s f.size DEFAULT_MAX_STORAGE =
        (false, CheckMsg.quotaExceeded (get_total_storage_size s)
          DEFAULT_MAX_STORAGE) := by
      simp [check_storage_available, h]
    simp only [add_note_attachment, hc]
  · intro s m i f rand pre dm post hm hsp hname
    have hl : _load_metadata s = m := by simp [_load_metadata, hm]
    simp only [add_doc_attachment, hl, hsp, hname, Bool.false_eq_true,
      if_false, _save_metadata]
    refine ⟨trivial, ?_, rfl⟩
    exact fileExists_writeFile_self _ _ f.size

/-- Witness for C1: with 2 GiB of uploads already on disk, a 20-byte note
upload is rejected with the used/limit figures and no state change, while
the same 20-byte doc upload goes through. -/
theorem C1_witness :
    (DEFAULT_MAX_STORAGE < get_total_storage_size sQuota + 20 ∧
      add_note_attachment sQuota 1 { filename := "a.txt", size := 20 }
        "abcd1234" = ((false, UploadMsg.quota (get_total_storage_size sQuota)
          DEFAULT_MAX_STORAGE), sQuota)) ∧
    (sQuota.metadata = some mEx ∧
      splitAtFirst (fun dm => dm.id == (1 : Int)) mEx.docs
        = some ([], dMetaEx, []) ∧
      (secure_filename "a.txt" == "") = false ∧
      (add_doc_attachment sQuota 1 { filename := "a.txt", size := 20 }
        "abcd1234").1 = true) :=
  ⟨⟨by decide, C1_quota_note_only.1 sQuota 1
      { filename := "a.txt", size := 20 } "abcd1234" (by decide)⟩,
   rfl, rfl, rfl,
   (C1_quota_note_only.2 sQuota mEx 1 { filename := "a.txt", size := 20 }
      "abcd1234" [] dMetaEx [] rfl rfl rfl).1⟩

/-- Counterexample to C1 as stated: with 2 GiB already used, a 20-byte DOC
attachment upload is accepted — `add_doc_attachment` performs no quota
check — the upload file is written and the metadata index changes, against
the claim's required rejection for every entity kind. -/
theorem C1_counterexample :
    DEFAULT_MAX_STORAGE < get_total_storage_size sQuota + 20 ∧
    (add_doc_attachment sQuota 1 { filename := "a.txt", size := 20 }
      "abcd1234").1 = true ∧
    (add_doc_attachment sQuota 1 { filename := "a.txt", size := 20 }
      "abcd1234").2.docsUploads =
      [("big.bin", 2147483648), ("1_abcd1234.txt", 20)] ∧
    (add_doc_attachment sQuota 1 { filename := "a.txt", size := 20 }
      "abcd1234").2.metadata ≠ sQuota.metadata :=
  ⟨by decide, rfl, by decide, by decide⟩

theorem fileExists_filter_ne (files : List (String × α)) (n : String) :
    fileExists (files.filter (fun p => !(p.1 == n))) n = false := by
  rw [fileExists, List.any_eq_false]
  intro x hx
  have h2 := (List.mem_filter.mp hx).2
  simp at h2 ⊢
  exact h2

/-- C7 (amended): for NOTES, removing an attachment deletes the physical
file if present, swallows a failing physical delete, unconditionally
removes the matching metadata entry (even when the physical file is gone
or undeletable) and returns `False` exactly when no note with that id
holds an attachment with that stored filename.  For DOCS the same holds
only while the physical delete does not error: the doc variant has no
`try/except`, so a failing `os.remove` propagates as an exception and the
metadata entry is NOT removed in that case. -/
theorem C7_delete_attachment (s : Storage) (m : Metadata) (i : Int)
    (fn : String) (hm : s.metadata = some m) :
    ((∀ nm ∈ m.notes, noteHasAttachment i fn nm = false) →
      delete_note_attachment s i fn = (false, s)) ∧
    (∀ pre nm post apre a apost,
      splitAtFirst (noteHasAttachment i fn) m.notes = some (pre, nm, post) →
      splitAtFirst (fun a => a.filename == fn) nm.attachments
        = some (apre, a, apost) →
      (delete_note_attachment s i fn).1 = true ∧
      (delete_note_attachment s i fn).2.metadata =
        some { m with notes := pre ++ { nm with attachments := apre ++ apost, updated_at := s.readings.getD s.tick 0 } :: post } ∧
      (fn ∉ s.failingRemovals →
        fileExists (delete_note_attachment s i fn).2.notesUploads fn
          = false) ∧
      (fn ∈ s.failingRemovals →
        (delete_note_attachment s i fn).2.notesUploads = s.notesUploads)) ∧
    ((∀ dm ∈ m.docs, docHasAttachment i fn dm = false) →
      delete_doc_attachment s i fn = (Except.ok false, s)) ∧
    (∀ pre dm post apre a apost,
      splitAtFirst (docHasAttachment i fn) m.docs = some (pre, dm, post) →
      splitAtFirst (fun a => a.filename == fn) dm.attachments
        = some (apre, a, apost) →
      ((fileExists s.docsUploads fn = false ∨ fn ∉ s.failingRemovals) →
        (delete_doc_attachment s i fn).1 = Except.ok true ∧
        (delete_doc_attachment s i fn).2.metadata =
          some { m with docs := pre ++ { dm with attachments := apre ++ apost, updated_at := s.readings.getD s.tick 0 } :: post }) ∧
      (fileExists s.docsUploads fn = true → fn ∈ s.failingRemovals →
        delete_doc_attachment s i fn = (Except.error osRemoveError, s))) := by
  have hl : _load_metadata s = m := by simp [_load_metadata, hm]
  refine ⟨?_, ?_, ?_, ?_⟩
  · intro h
    simp only [delete_note_attachment, hl]
    rw [splitAtFirst_eq_none.mpr h]
  · intro pre nm post apre a apost hsp hasp
    simp only [delete_note_attachment, hl, hsp, hasp, _save_metadata, utcnow]
    refine ⟨by trivial, by trivial, ?_, ?_⟩
    · intro hnf
      by_cases hex : fileExists s.notesUploads fn
      · have hr : removeIfExists s.failingRemovals s.notesUploads fn =
            Except.ok (s.notesUploads.filter (fun p => !(p.1 == fn))) := by
          simp [removeIfExists, hex, hnf]
        rw [hr]
        exact fileExists_filter_ne _ _
      · have hr : removeIfExists s.failingRemovals s.notesUploads fn =
            Except.ok s.notesUploads := by
          simp [removeIfExists, hex]
        rw [hr]
        simpa using hex
    · intro hinf
      by_cases hex : fileExists s.notesUploads fn
      · have hr : removeIfExists s.failingRemovals s.notesUploads fn =
            Except.error osRemoveError := by
          simp [removeIfExists, hex, hinf]
        rw [hr]
      · have hr : removeIfExists s.failingRemovals s.notesUploads fn =
            Except.ok s.notesUploads := by
          simp [removeIfExists, hex]
        rw [hr]
  · intro h
    simp only [delete_doc_attachment, hl]
    rw [splitAtFirst_eq_none.mpr h]
  · intro pre dm post apre a apost hsp hasp
    constructor
    · intro hok
      have hr : ∃ u, removeIfExists s.failingRemovals s.docsUploads fn =
          Except.ok u := by
        rcases hok with hex | hnf
        · exact ⟨s.docsUploads, by simp [removeIfExists, hex]⟩
        · by_cases hex : fileExists s.docsUploads fn
          · exact ⟨s.docsUploads.filter (fun p => !(p.1 == fn)),
              by simp [removeIfExists, hex, hnf]⟩
          · exact ⟨s.docsUploads, by simp [removeIfExists, hex]⟩
      obtain ⟨u, hu⟩ := hr
      simp only [delete_doc_attachment, hl, hsp, hasp, hu, _save_metadata,
        utcnow]
      exact ⟨by trivial, by trivial⟩
    · intro hex hinf
      have hr : removeIfExists s.failingRemovals s.docsUploads fn =
          Except.error osRemoveError := by
        simp [removeIfExists, hex, hinf]
      simp only [delete_doc_attachment, hl, hsp, hasp, hr]

/-- Witness for C7 on the attachment store with working deletes: the note
removal returns true and the upload file is gone; the doc removal also
returns ok true. -/
theorem C7_witness :
    sAttOk.metadata = some mAtt ∧
    (delete_note_attachment sAttOk 1 "f.bin").1 = true ∧
    fileExists (delete_note_attachment sAttOk 1 "f.bin").2.notesUploads
      "f.bin" = false ∧
    (delete_doc_attachment sAttOk 1 "f.bin").1 = Except.ok true :=
  ⟨rfl,
   ((C7_delete_attachment sAttOk mAtt 1 "f.bin" rfl).2.1
      [] nMetaAtt [] [] attEx [] rfl rfl).1,
   ((C7_delete_attachment sAttOk mAtt 1 "f.bin" rfl).2.1
      [] nMetaAtt [] [] attEx [] rfl rfl).2.2.1 (by decide),
   (((C7_delete_attachment sAttOk mAtt 1 "f.bin" rfl).2.2.2
      [] dMetaAtt [] [] attEx [] rfl rfl).1 (Or.inr (by decide))).1⟩

/-- Counterexample to C7 as stated: doc 1 holds attachment `f.bin`, whose
physical file exists but cannot be removed; `delete_doc_attachment` then
raises (no `try/except` around its `os.remove`) instead of succeeding, and
the metadata entry is not removed — the state is returned unchanged. -/
theorem C7_counterexample :
    docHasAttachment 1 "f.bin" dMetaAtt = true ∧
    fileExists sAttFail.docsUploads "f.bin" = true ∧
    delete_doc_attachment sAttFail 1 "f.bin"
      = (Except.error osRemoveError, sAttFail) :=
  ⟨by decide, by decide, rfl⟩

theorem fileExists_filter_false {files : List (String × α)} {x : String}
    (h : fileExists files x = false) (q : (String × α) → Bool) :
    fileExists (files.filter q) x = false := by
  rw [fileExists, List.any_eq_false] at h ⊢
  intro p hp
  exact h p (List.mem_filter.mp hp).1

theorem removeIfExists_nil_ok (files : List (String × α)) (n : String) :
    ∃ u, removeIfExists [] files n = Except.ok u ∧
      fileExists u n = false ∧
      (∀ x, fileExists files x = false → fileExists u x = false) := by
  by_cases hex : fileExists files n
  · refine ⟨files.filter (fun p => !(p.1 == n)),
      by simp [removeIfExists, hex], fileExists_filter_ne _ _, ?_⟩
    intro x hx
    exact fileExists_filter_false hx _
  · exact ⟨files, by simp [removeIfExists, hex], by simpa using hex,
      fun x hx => hx⟩

theorem deleteAttachFiles_nil (l : List AttachmentMeta) :
    ∀ u : List (String × Nat),
    ∃ u', deleteAttachFiles [] u l = (none, u') ∧
      (∀ a ∈ l, fileExists u' a.filename = false) ∧
      (∀ x, fileExists u x = false → fileExists u' x = false) := by
  induction l with
  | nil => intro u; exact ⟨u, rfl, by simp, fun x hx => hx⟩
  | cons a rest ih =>
    intro u
    obtain ⟨u1, hu1, hgone, hpres⟩ := removeIfExists_nil_ok u a.filename
    obtain ⟨u', hu', hall, hpres'⟩ := ih u1
    refine ⟨u', ?_, ?_, ?_⟩
    · simp only [deleteAttachFiles, hu1, hu']
    · intro b hb
      rcases List.mem_cons.mp hb with hb | hb
      · rw [hb]; exact hpres' a.filename hgone
      · exact hall b hb
    · intro x hx
      exact hpres' x (hpres x hx)

/-- C9: for every id, delete removes the content file (tolerating its
absence), every attachment file of that entity (tolerating individual
absence), and the MetadataRecord, returning true; afterwards get of that id
returns not-found and a second delete of the same id returns false.  Stated
over stores with per-kind-unique ids (the allocator's invariant) whose
physical deletes succeed. -/
theorem C9_delete_lifecycle (s : Storage) (m : Metadata) (i : Int)
    (hm : s.metadata = some m) (hfail : s.failingRemovals = [])
    (huN : m.notes.Pairwise (fun a b => a.id ≠ b.id))
    (huD : m.docs.Pairwise (fun a b => a.id ≠ b.id)) :
    ((∀ nm ∈ m.notes, (nm.id == i) = false) →
      delete_note s i = (Except.ok false, s)) ∧
    (∀ pre nm post,
      splitAtFirst (fun nm => nm.id == i) m.notes = some (pre, nm, post) →
      (delete_note s i).1 = Except.ok true ∧
      (delete_note s i).2.metadata = some { m with notes := pre ++ post } ∧
      fileExists (delete_note s i).2.notesFiles nm.filename = false ∧
      (∀ a ∈ nm.attachments,
        fileExists (delete_note s i).2.notesUploads a.filename = false) ∧
      get_note (delete_note s i).2 i = none ∧
      (delete_note (delete_note s i).2 i).1 = Except.ok false) ∧
    ((∀ dm ∈ m.docs, (dm.id == i) = false) →
      delete_doc s i = (Except.ok false, s)) ∧
    (∀ pre dm post,
      splitAtFirst (fun dm => dm.id == i) m.docs = some (pre, dm, post) →
      (delete_doc s i).1 = Except.ok true ∧
      (delete_doc s i).2.metadata = some { m with docs := pre ++ post } ∧
      fileExists (delete_doc s i).2.docsFiles dm.filename = false ∧
      (∀ a ∈ dm.attachments,
        fileExists (delete_doc s i).2.docsUploads a.filename = false) ∧
      get_doc (delete_doc s i).2 i = none ∧
      (delete_doc (delete_doc s i).2 i).1 = Except.ok false) := by
  have hl : _load_metadata s = m := by simp [_load_metadata, hm]
  refine ⟨?_, ?_, ?_, ?_⟩
  · intro h
    simp only [delete_note, hl]
    rw [splitAtFirst_eq_none.mpr h]
  · intro pre nm post hsp
    obtain ⟨heq, hpx, hpre⟩ := splitAtFirst_eq_some hsp
    obtain ⟨nf, hnf, hnfGone, hnfPres⟩ :=
      removeIfExists_nil_ok s.notesFiles nm.filename
    obtain ⟨nu, hnu, hnuAll, hnuPres⟩ :=
      deleteAttachFiles_nil nm.attachments s.notesUploads
    have hnf' : removeIfExists s.failingRemovals s.notesFiles nm.filename
        = Except.ok nf := by rw [hfail]; exact hnf
    have hnu' : deleteAttachFiles s.failingRemovals s.notesUploads
        nm.attachments = (none, nu) := by rw [hfail]; exact hnu
    have hres : delete_note s i = (Except.ok true,
        _save_metadata { s with notesFiles := nf, notesUploads := nu }
          { m with notes := pre ++ post }) := by
      simp only [delete_note, hl, hsp, hnf', hnu']
    have hpost : ∀ y ∈ post, (y.id == i) = false := by
      rw [heq] at huN
      have h2 := (List.pairwise_append.mp huN).2.1
      have h3 := (List.pairwise_cons.mp h2).1
      intro y hy
      have hne : nm.id ≠ y.id := h3 y hy
      have hi : nm.id = i := by simpa using hpx
      simp only [beq_eq_false_iff_ne, ne_eq]
      omega
    have hallpp : ∀ y ∈ pre ++ post, (y.id == i) = false := by
      intro y hy
      rcases List.mem_append.mp hy with hy | hy
      · exact hpre y hy
      · exact hpost y hy
    refine ⟨by rw [hres], by rw [hres]; rfl, ?_, ?_, ?_, ?_⟩
    · rw [hres]; exact hnfGone
    · intro a ha
      rw [hres]
      exact hnuAll a ha
    · rw [hres]
      have hfind : ((pre ++ post).find?
          (fun x => x.id == i && fileExists nf x.filename)) = none := by
        rw [List.find?_eq_none]
        intro y hy
        rw [hallpp y hy, Bool.false_and]
        simp
      simp only [get_note, _save_metadata, _load_metadata, Option.getD_some,
        hfind]
    · rw [hres]
      simp only [delete_note, _save_metadata, _load_metadata,
        Option.getD_some]
      rw [splitAtFirst_eq_none.mpr hallpp]
  · intro h
    simp only [delete_doc, hl]
    rw [splitAtFirst_eq_none.mpr h]
  · intro pre dm post hsp
    obtain ⟨heq, hpx, hpre⟩ := splitAtFirst_eq_some hsp
    obtain ⟨df, hdf, hdfGone, hdfPres⟩ :=
      removeIfExists_nil_ok s.docsFiles dm.filename
    obtain ⟨du, hdu, hduAll, hduPres⟩ :=
      deleteAttachFiles_nil dm.attachments s.docsUploads
    have hdf' : removeIfExists s.failingRemovals s.docsFiles dm.filename
        = Except.ok df := by rw [hfail]; exact hdf
    have hdu' : deleteAttachFiles s.failingRemovals s.docsUploads
        dm.attachments = (none, du) := by rw [hfail]; exact hdu
    have hres : delete_doc s i = (Except.ok true,
        _save_metadata { s with docsFiles := df, docsUploads := du }
          { m with docs := pre ++ post }) := by
      simp only [delete_doc, hl, hsp, hdf', hdu']
    have hpost : ∀ y ∈ post, (y.id == i) = false := by
      rw [heq] at huD
      have h2 := (List.pairwise_append.mp huD).2.1
      have h3 := (List.pairwise_cons.mp h2).1
      intro y hy
      have hne : dm.id ≠ y.id := h3 y hy
      have hi : dm.id = i := by simpa using hpx
      simp only [beq_eq_false_iff_ne, ne_eq]
      omega
    have hallpp : ∀ y ∈ pre ++ post, (y.id == i) = false := by
      intro y hy
      rcases List.mem_append.mp hy with hy | hy
      · exact hpre y hy
      · exact hpost y hy
    refine ⟨by rw [hres], by rw [hres]; rfl, ?_, ?_, ?_, ?_⟩
    · rw [hres]; exact hdfGone
    · intro a ha
      rw [hres]
      exact hduAll a ha
    · rw [hres]
      have hfind : ((pre ++ post).find?
          (fun x => x.id == i && fileExists df x.filename)) = none := by
        rw [List.find?_eq_none]
        intro y hy
        rw [hallpp y hy, Bool.false_and]
        simp
      simp only [get_doc, _save_metadata, _load_metadata, Option.getD_some,
        hfind]
    · rw [hres]
      simp only [delete_doc, _save_metadata, _load_metadata,
        Option.getD_some]
      rw [splitAtFirst_eq_none.mpr hallpp]

/-- Witness for C9 on the attachment store: deleting note 1 (and doc 1)
succeeds, the entity is gone afterwards, and a second delete returns
false. -/
theorem C9_witness :
    sAttOk.metadata = some mAtt ∧
    sAttOk.failingRemovals = [] ∧
    (delete_note sAttOk 1).1 = Except.ok true ∧
    get_note (delete_note sAttOk 1).2 1 = none ∧
    (delete_note (delete_note sAttOk 1).2 1).1 = Except.ok false ∧
    (delete_doc sAttOk 1).1 = Except.ok true ∧
    get_doc (delete_doc sAttOk 1).2 1 = none :=
  ⟨rfl, rfl,
   ((C9_delete_lifecycle sAttOk mAtt 1 rfl rfl (by simp [mAtt])
      (by simp [mAtt])).2.1 [] nMetaAtt [] rfl).1,
   ((C9_delete_lifecycle sAttOk mAtt 1 rfl rfl (by simp [mAtt])
      (by simp [mAtt])).2.1 [] nMetaAtt [] rfl).2.2.2.2.1,
   ((C9_delete_lifecycle sAttOk mAtt 1 rfl rfl (by simp [mAtt])
      (by simp [mAtt])).2.1 [] nMetaAtt [] rfl).2.2.2.2.2,
   ((C9_delete_lifecycle sAttOk mAtt 1 rfl rfl (by simp [mAtt])
      (by simp [mAtt])).2.2.2 [] dMetaAtt [] rfl).1,
   ((C9_delete_lifecycle sAttOk mAtt 1 rfl rfl (by simp [mAtt])
      (by simp [mAtt])).2.2.2 [] dMetaAtt [] rfl).2.2.2.2.1⟩

theorem create_note_docsOf (s : Storage) (ti co ca : String)
    (u : Option Int) : docsOf (create_note s ti co ca u).2 = docsOf s := by
  simp [docsOf, create_note_metadata]

theorem update_note_docsOf (s : Storage) (i : Int)
    (t c cat : Option String) (u : Option Int) :
    docsOf (update_note s i t c cat u).2 = docsOf s := by
  rcases e : splitAtFirst (fun nm => nm.id == i) (_load_metadata s).notes
      with _ | t3
  · simp [update_note, e]
  · obtain ⟨pre, nm, post⟩ := t3
    simp only [update_note, e]
    split
    · rfl
    · rfl

theorem increment_note_docsOf (s : Storage) (i : Int) :
    docsOf (increment_note_view_count s i).2 = docsOf s := by
  rcases e : splitAtFirst (fun nm => nm.id == i) (_load_metadata s).notes
      with _ | t3
  · simp [increment_note_view_count, e]
  · obtain ⟨pre, nm, post⟩ := t3
    simp only [increment_note_view_count, e]
    rfl

theorem delete_note_docsOf (s : Storage) (i : Int) :
    docsOf (delete_note s i).2 = docsOf s := by
  rcases e : splitAtFirst (fun nm => nm.id == i) (_load_metadata s).notes
      with _ | t3
  · simp [delete_note, e]
  · obtain ⟨pre, nm, post⟩ := t3
    simp only [delete_note, e]
    rcases e2 : removeIfExists s.failingRemovals s.notesFiles nm.filename
        with e' | nf
    · rfl
    · rcases e3 : deleteAttachFiles s.failingRemovals s.notesUploads
          nm.attachments with ⟨o, nu⟩
      rcases o with _ | msg <;> simp only [e3] <;> rfl

theorem add_note_attachment_docsOf (s : Storage) (i : Int)
    (f : UploadedFile) (rand : String) :
    docsOf (add_note_attachment s i f rand).2 = docsOf s := by
  rcases e : check_storage_available s f.size DEFAULT_MAX_STORAGE
      with ⟨b, msg⟩
  rcases b <;> rcases msg with _ | ⟨used, limit⟩ <;>
      simp only [add_note_attachment, e] <;>
    first
      | rfl
      | (rcases e2 : splitAtFirst (fun nm => nm.id == i)
            (_load_metadata s).notes with _ | t3
         · simp [e2]
         · obtain ⟨pre, nm, post⟩ := t3
           simp only [e2]
           split
           · rfl
           · rfl)

theorem delete_note_attachment_docsOf (s : Storage) (i : Int)
    (fn : String) :
    docsOf (delete_note_attachment s i fn).2 = docsOf s := by
  rcases e : splitAtFirst (noteHasAttachment i fn) (_load_metadata s).notes
      with _ | t3
  · simp [delete_note_attachment, e]
  · obtain ⟨pre, nm, post⟩ := t3
    simp only [delete_note_attachment, e]
    rcases e2 : splitAtFirst (fun a => a.filename == fn) nm.attachments
        with _ | t4
    · simp only [e2]
    · obtain ⟨apre, a, apost⟩ := t4
      simp only [e2]
      rfl

theorem create_doc_notesOf (s : Storage) (ti co ca : String)
    (u : Option Int) : notesOf (create_doc s ti co ca u).2 = notesOf s := by
  simp [notesOf, create_doc_metadata]

theorem update_doc_notesOf (s : Storage) (i : Int)
    (t c cat : Option String) :
    notesOf (update_doc s i t c cat).2 = notesOf s := by
  rcases e : splitAtFirst (fun dm => dm.id == i) (_load_metadata s).docs
      with _ | t3
  · simp [update_doc, e]
  · obtain ⟨pre, dm, post⟩ := t3
    simp only [update_doc, e]
    split
    · rfl
    · rfl

theorem delete_doc_notesOf (s : Storage) (i : Int) :
    notesOf (delete_doc s i).2 = notesOf s := by
  rcases e : splitAtFirst (fun dm => dm.id == i) (_load_metadata s).docs
      with _ | t3
  · simp [delete_doc, e]
  · obtain ⟨pre, dm, post⟩ := t3
    simp only [delete_doc, e]
    rcases e2 : removeIfExists s.failingRemovals s.docsFiles dm.filename
        with e' | df
    · rfl
    · rcases e3 : deleteAttachFiles s.failingRemovals s.docsUploads
          dm.attachments with ⟨o, du⟩
      rcases o with _ | msg <;> simp only [e3] <;> rfl

theorem add_doc_attachment_notesOf (s : Storage) (i : Int)
    (f : UploadedFile) (rand : String) :
    notesOf (add_doc_attachment s i f rand).2 = notesOf s := by
  rcases e : splitAtFirst (fun dm => dm.id == i) (_load_metadata s).docs
      with _ | t3
  · simp [add_doc_attachment, e]
  · obtain ⟨pre, dm, post⟩ := t3
    simp only [add_doc_attachment, e]
    split
    · rfl
    · rfl

theorem delete_doc_attachment_notesOf (s : Storage) (i : Int)
    (fn : String) :
    notesOf (delete_doc_attachment s i fn).2 = notesOf s := by
  rcases e : splitAtFirst (docHasAttachment i fn) (_load_metadata s).docs
      with _ | t3
  · simp [delete_doc_attachment, e]
  · obtain ⟨pre, dm, post⟩ := t3
    simp only [delete_doc_attachment, e]
    rcases e2 : splitAtFirst (fun a => a.filename == fn) dm.attachments
        with _ | t4
    · simp only [e2]
    · obtain ⟨apre, a, apost⟩ := t4
      simp only [e2]
      rcases e3 : removeIfExists s.failingRemovals s.docsUploads fn
          with e' | du
      · rfl
      · rfl

/-- C10: kind isolation frame — every mutating note operation (create,
update, delete, view-count increment, attachment add/remove) leaves the
docs sequence of the metadata index unchanged, and every mutating doc
operation leaves the notes sequence unchanged; the read operations (get,
list, category listing) take no state at all in this embedding, so they
change neither. -/
theorem C10_kind_isolation (s : Storage) (i : Int) (ti co ca : String)
    (t c cat : Option String) (u : Option Int) (f : UploadedFile)
    (rand fn : String) :
    docsOf (create_note s ti co ca u).2 = docsOf s ∧
    docsOf (update_note s i t c cat u).2 = docsOf s ∧
    docsOf (delete_note s i).2 = docsOf s ∧
    docsOf (increment_note_view_count s i).2 = docsOf s ∧
    docsOf (add_note_attachment s i f rand).2 = docsOf s ∧
    docsOf (delete_note_attachment s i fn).2 = docsOf s ∧
    notesOf (create_doc s ti co ca u).2 = notesOf s ∧
    notesOf (update_doc s i t c cat).2 = notesOf s ∧
    notesOf (delete_doc s i).2 = notesOf s ∧
    notesOf (add_doc_attachment s i f rand).2 = notesOf s ∧
    notesOf (delete_doc_attachment s i fn).2 = notesOf s :=
  ⟨create_note_docsOf s ti co ca u,
   update_note_docsOf s i t c cat u,
   delete_note_docsOf s i,
   increment_note_docsOf s i,
   add_note_attachment_docsOf s i f rand,
   delete_note_attachment_docsOf s i fn,
   create_doc_notesOf s ti co ca u,
   update_doc_notesOf s i t c cat,
   delete_doc_notesOf s i,
   add_doc_attachment_notesOf s i f rand,
   delete_doc_attachment_notesOf s i fn⟩

theorem mergeSort_filter_ties {α : Type} {le : α → α → Bool}
    (trans : ∀ a b c, le a b = true → le b c = true → le a c = true)
    (total : ∀ a b, (le a b || le b a) = true)
    (p : α → Bool) (hp : ∀ a b, p a = true → p b = true → le a b = true)
    (l : List α) :
    (l.mergeSort le).filter p = l.filter p := by
  have hpair : (l.filter p).Pairwise (fun a b => le a b = true) :=
    List.pairwise_of_forall_mem_list (fun a ha b hb =>
      hp a b (List.of_mem_filter ha) (List.of_mem_filter hb))
  have hsub : (l.filter p).Sublist (l.mergeSort le) :=
    List.sublist_mergeSort trans total hpair (List.filter_sublist l)
  have hself : (l.filter p).filter p = l.filter p := by
    rw [List.filter_filter]
    simp only [Bool.and_self]
  have hsub2 : (l.filter p).Sublist ((l.mergeSort le).filter p) := by
    have h2 := List.Sublist.filter p hsub
    rwa [hself] at h2
  have hlen : ((l.mergeSort le).filter p).length = (l.filter p).length :=
    (List.Perm.filter p (List.mergeSort_perm l le)).length_eq
  exact (hsub2.eq_of_length hlen.symm).symm

theorem noteDescLe_trans : ∀ a b c : Note, noteDescLe a b = true →
    noteDescLe b c = true → noteDescLe a c = true := by
  intro a b c hab hbc
  simp only [noteDescLe, decide_eq_true_eq] at *
  omega

theorem noteDescLe_total : ∀ a b : Note,
    (noteDescLe a b || noteDescLe b a) = true := by
  intro a b
  simp only [noteDescLe, Bool.or_eq_true, decide_eq_true_eq]
  omega

theorem docDescLe_trans : ∀ a b c : Document, docDescLe a b = true →
    docDescLe b c = true → docDescLe a c = true := by
  intro a b c hab hbc
  simp only [docDescLe, decide_eq_true_eq] at *
  omega

theorem docDescLe_total : ∀ a b : Document,
    (docDescLe a b || docDescLe b a) = true := by
  intro a b
  simp only [docDescLe, Bool.or_eq_true, decide_eq_true_eq]
  omega

theorem collectNotes_eq (s : Storage) (cat q : Option String)
    (hc : cat ≠ some "") (hq : q ≠ some "") (l : List NoteMeta) :
    collectNotes s cat q l = l.filterMap (fun nm =>
      match lookupFile s.notesFiles nm.filename with
      | none => none
      | some content =>
        if claimCatOk cat nm.category && claimQueryOk q nm.title content
        then some (noteFromMeta nm content) else none) := by
  induction l with
  | nil => rfl
  | cons nm rest ih =>
    have hcat : catSkip cat nm.category = !(claimCatOk cat nm.category) := by
      rcases cat with _ | v
      · rfl
      · have hv : (v == "") = false := by
          simp only [beq_eq_false_iff_ne, ne_eq]
          intro h
          exact hc (by rw [h])
        simp [catSkip, claimCatOk, hv, Bool.not_or]
    have hquery : ∀ content,
        querySkip q nm.title content = !(claimQueryOk q nm.title content) := by
      intro content
      rcases q with _ | v
      · rfl
      · have hv : (v == "") = false := by
          simp only [beq_eq_false_iff_ne, ne_eq]
          intro h
          exact hq (by rw [h])
        simp [querySkip, claimQueryOk, hv, Bool.not_or]
    rw [List.filterMap_cons]
    by_cases h1 : claimCatOk cat nm.category
    · rcases e : lookupFile s.notesFiles nm.filename with _ | content
      · simp only [collectNotes, hcat, h1, Bool.not_true, Bool.false_eq_true,
          if_false, e, ih]
      · by_cases h2 : claimQueryOk q nm.title content
        · simp only [collectNotes, hcat, h1, Bool.not_true,
            Bool.false_eq_true, if_false, e, hquery, h2, Bool.and_self,
            if_true, ih]
        · have h2' : claimQueryOk q nm.title content = false := by
            simpa using h2
          simp only [collectNotes, hcat, h1, Bool.not_true,
            Bool.false_eq_true, if_false, e, hquery, h2', Bool.not_false,
            if_true, Bool.and_false, ih]
    · have h1' : claimCatOk cat nm.category = false := by simpa using h1
      have hskip : catSkip cat nm.category = true := by
        rw [hcat, h1']
        rfl
      rcases e : lookupFile s.notesFiles nm.filename with _ | content
      · simp only [collectNotes, hskip, if_true, e, ih]
      · simp only [collectNotes, hskip, if_true, e, ih, h1',
          Bool.false_and, Bool.false_eq_true, if_false]

theorem collectDocs_eq (s : Storage) (cat q : Option String)
    (hc : cat ≠ some "") (hq : q ≠ some "") (l : List DocMeta) :
    collectDocs s cat q l = l.filterMap (fun dm =>
      match lookupFile s.docsFiles dm.filename with
      | none => none
      | some content =>
        if claimCatOk cat dm.category && claimQueryOk q dm.title content
        then some (docFromMeta dm content) else none) := by
  induction l with
  | nil => rfl
  | cons dm rest ih =>
    have hcat : catSkip cat dm.category = !(claimCatOk cat dm.category) := by
      rcases cat with _ | v
      · rfl
      · have hv : (v == "") = false := by
          simp only [beq_eq_false_iff_ne, ne_eq]
          intro h
          exact hc (by rw [h])
        simp [catSkip, claimCatOk, hv, Bool.not_or]
    have hquery : ∀ content,
        querySkip q dm.title content = !(claimQueryOk q dm.title content) := by
      intro content
      rcases q with _ | v
      · rfl
      · have hv : (v == "") = false := by
          simp only [beq_eq_false_iff_ne, ne_eq]
          intro h
          exact hq (by rw [h])
        simp [querySkip, claimQueryOk, hv, Bool.not_or]
    rw [List.filterMap_cons]
    by_cases h1 : claimCatOk cat dm.category
    · rcases e : lookupFile s.docsFiles dm.filename with _ | content
      · simp only [collectDocs, hcat, h1, Bool.not_true, Bool.false_eq_true,
          if_false, e, ih]
      · by_cases h2 : claimQueryOk q dm.title content
        · simp only [collectDocs, hcat, h1, Bool.not_true,
            Bool.false_eq_true, if_false, e, hquery, h2, Bool.and_self,
            if_true, ih]
        · have h2' : claimQueryOk q dm.title content = false := by
            simpa using h2
          simp only [collectDocs, hcat, h1, Bool.not_true,
            Bool.false_eq_true, if_false, e, hquery, h2', Bool.not_false,
            if_true, Bool.and_false, ih]
    · have h1' : claimCatOk cat dm.category = false := by simpa using h1
      have hskip : catSkip cat dm.category = true := by
        rw [hcat, h1']
        rfl
      rcases e : lookupFile s.docsFiles dm.filename with _ | content
      · simp only [collectDocs, hskip, if_true, e, ih]
      · simp only [collectDocs, hskip, if_true, e, ih, h1',
          Bool.false_and, Bool.false_eq_true, if_false]

/-- C5: for every store state and every pair of filters (excluding the
degenerate empty strings, which Python treats as absent), listing returns
exactly the eligible entities of the kind — content file exists, category
equal to the filter string exactly with the sentinel `"all"` (or an absent
filter) meaning no filter, and title OR content containing the query
case-insensitively — as the stable merge sort of that eligible list by
`updated_at` descending; the result is sorted by `updated_at` descending,
and entities sharing an `updated_at` value keep their original metadata
order. -/
theorem C5_listing (s : Storage) (cat q : Option String)
    (hc : cat ≠ some "") (hq : q ≠ some "") :
    get_all_notes s cat q =
      (claimEligibleNotes s cat q).mergeSort noteDescLe ∧
    (get_all_notes s cat q).Sorted
      (fun a b => b.updated_at ≤ a.updated_at) ∧
    (∀ tv : Nat,
      (get_all_notes s cat q).filter (fun n => n.updated_at == tv)
        = (claimEligibleNotes s cat q).filter (fun n => n.updated_at == tv)) ∧
    get_all_docs s cat q =
      (claimEligibleDocs s cat q).mergeSort docDescLe ∧
    (get_all_docs s cat q).Sorted
      (fun a b => b.updated_at ≤ a.updated_at) ∧
    (∀ tv : Nat,
      (get_all_docs s cat q).filter (fun d => d.updated_at == tv)
        = (claimEligibleDocs s cat q).filter (fun d => d.updated_at == tv))
    := by
  have hn : collectNotes s cat q ((_load_metadata s).notes)
      = claimEligibleNotes s cat q := collectNotes_eq s cat q hc hq _
  have hd : collectDocs s cat q ((_load_metadata s).docs)
      = claimEligibleDocs s cat q := collectDocs_eq s cat q hc hq _
  refine ⟨?_, ?_, ?_, ?_, ?_, ?_⟩
  · rw [get_all_notes, hn]
  · rw [get_all_notes]
    exact List.Pairwise.imp
      (fun h => by simpa [noteDescLe] using h)
      (List.sorted_mergeSort noteDescLe_trans noteDescLe_total _)
  · intro tv
    rw [get_all_notes, hn]
    refine mergeSort_filter_ties noteDescLe_trans noteDescLe_total _
      ?_ _
    intro a b ha hb
    simp only [beq_iff_eq] at ha hb
    simp [noteDescLe, ha, hb]
  · rw [get_all_docs, hd]
  · rw [get_all_docs]
    exact List.Pairwise.imp
      (fun h => by simpa [docDescLe] using h)
      (List.sorted_mergeSort docDescLe_trans docDescLe_total _)
  · intro tv
    rw [get_all_docs, hd]
    refine mergeSort_filter_ties docDescLe_trans docDescLe_total _
      ?_ _
    intro a b ha hb
    simp only [beq_iff_eq] at ha hb
    simp [docDescLe, ha, hb]

/-- Witness for C5 at the one-note one-doc store with an exact category
filter and no search query. -/
theorem C5_witness :
    (some "general" ≠ (some "" : Option String)) ∧
    ((none : Option String) ≠ some "") ∧
    (get_all_notes sQuota (some "general") none =
      (claimEligibleNotes sQuota (some "general") none).mergeSort noteDescLe ∧
    (get_all_notes sQuota (some "general") none).Sorted
      (fun a b => b.updated_at ≤ a.updated_at) ∧
    (∀ tv : Nat,
      (get_all_notes sQuota (some "general") none).filter
          (fun n => n.updated_at == tv)
        = (claimEligibleNotes sQuota (some "general") none).filter
          (fun n => n.updated_at == tv)) ∧
    get_all_docs sQuota (some "general") none =
      (claimEligibleDocs sQuota (some "general") none).mergeSort docDescLe ∧
    (get_all_docs sQuota (some "general") none).Sorted
      (fun a b => b.updated_at ≤ a.updated_at) ∧
    (∀ tv : Nat,
      (get_all_docs sQuota (some "general") none).filter
          (fun d => d.updated_at == tv)
        = (claimEligibleDocs sQuota (some "general") none).filter
          (fun d => d.updated_at == tv))) :=
  ⟨by decide, by decide,
   C5_listing sQuota (some "general") none (by decide) (by decide)⟩
